import Mathlib

/-!
# mezasi: command descriptors, argument validation and request builders

A shallow embedding of `src/mezasi/command.go`, `src/mezasi/client.go` and the
tail of `src/mezasi/main.go`.  Go strings are Lean strings; the standard
library calls the program makes (`strings.Split`, `regexp.MatchString`,
`strings.Index`, `fmt.Scanf`) are embedded as executable functions on
character lists, and everything the program reaches outside the process
(URL parsing, the HTTP transport, the file system, standard input, the
JSON codec, the `ssh` binary) is a field of `World`.
-/

namespace Mezasi

/-! ## Go library functions used by the validator -/

/-- Go `strings.Split(s, " ")`: cut at every single space; an empty input
gives one empty token and two adjacent spaces give an empty token. -/
def splitSpace : List Char → List (List Char)
  | [] => [[]]
  | c :: cs =>
    if c = ' ' then [] :: splitSpace cs
    else
      match splitSpace cs with
      | [] => [[c]]
      | t :: ts => (c :: t) :: ts

/-- The regexp class `\w` of Go (RE2): ASCII letters, digits and underscore. -/
def isWordChar (c : Char) : Bool :=
  c.isAlphanum || c == '_'

/-- Matches `\w+` followed by `close` at the head of the input when `seen`
is false, and `\w*` followed by `close` when `seen` is true. -/
def wordsThenClose (close : Char) : Bool → List Char → Bool
  | _, [] => false
  | seen, c :: cs =>
    if isWordChar c then wordsThenClose close true cs
    else seen && c == close

/-- Go `regexp.MatchString` for a pattern of the shape `open \w+ close`:
the match is not anchored, any position of the input may start it. -/
def matchBracketed (opening close : Char) : List Char → Bool
  | [] => false
  | c :: cs =>
    (c == opening && wordsThenClose close false cs) || matchBracketed opening close cs

/-- The pattern `must` of `validateCmdArgs`, compiled from `<\w+>`. -/
def mustMatch (action : List Char) : Bool :=
  matchBracketed '<' '>' action

/-- The pattern `option` of `validateCmdArgs`, compiled from `\[\w+\]`. -/
def optionMatch (action : List Char) : Bool :=
  matchBracketed '[' ']' action

/-- The variadic marker `...` as a token. -/
def dots : List Char := ['.', '.', '.']

/-! ## Command descriptors -/

/-- Go errors are compared by their message here. -/
abbrev GoError := String

/-- A value held by a flag of `flag.FlagSet`. -/
inductive FlagValue
  | str (s : String)
  | bool (b : Bool)
  deriving DecidableEq, Repr

/-- The part of `commander.Command` the handlers read: the usage line and
the defined flags with their current values. -/
structure Command where
  UsageLine : String
  Flag : List (String × FlagValue)
  deriving DecidableEq, Repr

/-- The tokens `strings.Split(cmd.UsageLine, " ")`. -/
def usageTokens (usage : String) : List (List Char) :=
  splitSpace usage.toList

/-- The `for` loop of `validateCmdArgs` over the remaining tokens, carrying
`mustVal` and `optionVal`; `none` is the `return nil` inside the loop, and
`some (mustVal, optionVal)` is the state when the loop runs to its end. -/
def validateLoop (argc : Nat) : List (List Char) → Nat → Nat → Option (Nat × Nat)
  | [], mustVal, optionVal => some (mustVal, optionVal)
  | action :: rest, mustVal, optionVal =>
    let mustVal := if mustMatch action then mustVal + 1 else mustVal
    let optionVal := if optionMatch action then optionVal + 1 else optionVal
    if action = dots ∧ mustVal ≤ argc then none
    else validateLoop argc rest mustVal optionVal

/-- The error `validateCmdArgs` builds on its last line. -/
def usageError (cmd : Command) : GoError :=
  "invalid argument\nUsage: " ++ cmd.UsageLine

/-- Go `validateCmdArgs`: `none` is the nil error. -/
def validateCmdArgs (cmd : Command) (args : List String) : Option GoError :=
  match validateLoop args.length (usageTokens cmd.UsageLine) 0 0 with
  | none => none
  | some (mustVal, optionVal) =>
    if mustVal ≤ args.length ∧ args.length ≤ mustVal + optionVal then none
    else some (usageError cmd)

/-- Modelled from the spec: `commander.Command.Name` is library code outside
`src/`.  The spec has the path reuse "the command's own name", the identifier
that opens the usage line; this is the usage line up to its first space (the
whole line when it has none). -/
def Command.Name (cmd : Command) : String :=
  String.mk (cmd.UsageLine.toList.takeWhile (fun c => c ≠ ' '))

/-- Go `cmd.Flag.Lookup(name)`: the flag, or nil when it is not defined. -/
def Command.lookup (cmd : Command) (name : String) : Option FlagValue :=
  (cmd.Flag.find? (fun kv => kv.1 == name)).map (fun kv => kv.2)

/-! ## The world outside the process and the trace of effects -/

/-- One part of a multipart form body: `Content-Disposition: form-data` with
this field name, followed by the content. -/
structure Part where
  name : String
  content : String
  deriving DecidableEq, Repr

/-- An `http.Request` as the client builds it; `Body = none` is the nil body. -/
structure Request where
  Method : String
  URL : String
  Body : Option (List Part)
  Header : List (String × String)
  deriving DecidableEq, Repr

/-- An `http.Response` as the program reads it: `Body` is what
`ioutil.ReadAll(resp.Body)` gives. -/
structure Response where
  Status : String
  StatusCode : Int
  ContentType : String
  Body : Except GoError String

/-- A decoded JSON value, as far as `runSshCmd` distinguishes them. -/
inductive JsonValue
  | str (s : String)
  | other
  deriving DecidableEq, Repr

/-- Everything the program reaches outside its own code. -/
structure World where
  /-- The endpoint URL of the profile, already parsed by `main`. -/
  endpoint : String
  /-- Go `url.Parse`. -/
  urlParse : String → Except GoError String
  /-- Go `base.ResolveReference(ref).String()`. -/
  resolveReference : String → String → String
  /-- The error of `http.NewRequest(method, url, body)`, if it has one. -/
  httpNewRequest : String → String → Option GoError
  /-- Go `http.Client.Do`. -/
  roundTrip : Request → Except GoError Response
  /-- Go `os.Open` followed by reading the file to its end. -/
  osOpen : String → Except GoError (Except GoError String)
  /-- The boundary `multipart.NewWriter` picks. -/
  boundary : String
  /-- What is waiting on standard input. -/
  stdin : String
  /-- Go `json.Indent(&b, src, "", "    ")`. -/
  jsonIndent : String → Except GoError String
  /-- Go `json.Decoder.Decode` into a map. -/
  jsonDecode : String → Except GoError (List (String × JsonValue))
  /-- Go `exec.LookPath`. -/
  lookPath : String → Except GoError String
  /-- Go `exec.Cmd.Run` with the standard streams attached. -/
  runProcess : String → List String → Option GoError

/-- An effect of the program that is visible from outside. -/
inductive Event
  | newRequest (method pathStr : String) (body : Option (List Part))
  | httpDo (req : Request)
  | osOpen (path : String)
  | logPrintln (s : String)
  | fmtPrintln (s : String)
  | fmtPrintf (s : String)
  | fmtScanf
  | lookPath (file : String)
  | execRun (path : String) (args : List String)
  deriving DecidableEq, Repr

/-- A Go run-time panic. -/
inductive Panic
  | indexOutOfRange
  | nilDereference
  | typeAssertion
  deriving DecidableEq, Repr

/-- How a handler ends: it returns an error value (`none` is nil), the
process exits through `os.Exit`, or it panics. -/
inductive Outcome
  | returned (err : Option GoError)
  | exited (code : Nat)
  | panicked (p : Panic)
  deriving DecidableEq, Repr

/-- A step of a handler either goes on with a value or ends the handler. -/
inductive Step (α : Type)
  | next (a : α)
  | done (o : Outcome)

/-- A computation with its trace of effects, oldest first. -/
structure Act (α : Type) where
  step : Step α
  trace : List Event

namespace Act

/-- Sequencing: the trace of the second part follows that of the first, and
nothing runs after the handler has ended. -/
def bind {α β : Type} (m : Act α) (f : α → Act β) : Act β :=
  match m.step with
  | .next a => ⟨(f a).step, m.trace ++ (f a).trace⟩
  | .done o => ⟨.done o, m.trace⟩

instance : Monad Act where
  pure a := ⟨.next a, []⟩
  bind := Act.bind

/-- Record one effect. -/
def emit (e : Event) : Act Unit := ⟨.next (), [e]⟩

/-- Go `return err` with a non-nil error. -/
def returnErr {α : Type} (err : GoError) : Act α := ⟨.done (.returned (some err)), []⟩

/-- Go `if err != nil { return err }`. -/
def check (err : Option GoError) : Act Unit :=
  match err with
  | none => pure ()
  | some e => returnErr e

/-- Go `v, err := f(); if err != nil { return err }`. -/
def orReturn {α : Type} (r : Except GoError α) : Act α :=
  match r with
  | .ok a => pure a
  | .error e => returnErr e

/-- A run-time panic. -/
def goPanic {α : Type} (p : Panic) : Act α := ⟨.done (.panicked p), []⟩

/-- Go `os.Exit(code)`. -/
def osExit {α : Type} (code : Nat) : Act α := ⟨.done (.exited code), []⟩

/-- How a handler that returns an error value ends. -/
def outcome (m : Act (Option GoError)) : Outcome :=
  match m.step with
  | .next err => .returned err
  | .done o => o

end Act

open Act

/-- The requests handed to `client.Do`, in order. -/
def sent : List Event → List Request
  | [] => []
  | .httpDo req :: es => req :: sent es
  | _ :: es => sent es

/-- The calls of `client.NewRequest`, in order: method, relative path, body. -/
def built : List Event → List (String × String × Option (List Part))
  | [] => []
  | .newRequest m p b :: es => (m, p, b) :: built es
  | _ :: es => built es

/-- The files the program tried to open, in order. -/
def opened : List Event → List String
  | [] => []
  | .osOpen p :: es => p :: opened es
  | _ :: es => opened es

/-- The subprocesses the program started, in order. -/
def started : List Event → List (String × List String)
  | [] => []
  | .execRun p a :: es => (p, a) :: started es
  | _ :: es => started es

/-- The number of reads from standard input. -/
def scans : List Event → Nat
  | [] => 0
  | .fmtScanf :: es => scans es + 1
  | _ :: es => scans es

/-- The lines written to standard output by `fmt.Println`, in order. -/
def printed : List Event → List String
  | [] => []
  | .fmtPrintln s :: es => s :: printed es
  | _ :: es => printed es

/-- The exit status of the process: `main` calls `errExit` on an error of
`Dispatch`, which prints it and exits with 1. -/
def exitStatus : Outcome → Nat
  | .returned none => 0
  | .returned (some _) => 1
  | .exited code => code
  | .panicked _ => 2

/-! ## `client.go` -/

/-- The `Client` struct without its transport, which is in `World`. -/
structure Client where
  UserAgent : String
  EndPoint : String
  deriving DecidableEq, Repr

/-- Go `NewClient`. -/
def NewClient (endpoint : String) : Client :=
  { UserAgent := "Mezasi/0.1", EndPoint := endpoint }

/-- The package variable `client`, set by `main`. -/
def client (w : World) : Client := NewClient w.endpoint

/-- The value `(*Client).NewRequest` returns. -/
def Client.buildRequest (w : World) (c : Client) (method pathStr : String)
    (body : Option (List Part)) : Except GoError Request :=
  match w.urlParse pathStr with
  | .error err => .error err
  | .ok urlPath =>
    let u := w.resolveReference c.EndPoint urlPath
    match w.httpNewRequest method u with
    | some err => .error err
    | none => .ok { Method := method, URL := u, Body := body,
                    Header := [("User-Agent", c.UserAgent)] }

/-- Go `(*Client).NewRequest`, with the call recorded. -/
def Client.NewRequest (w : World) (c : Client) (method pathStr : String)
    (body : Option (List Part)) : Act (Except GoError Request) := do
  emit (.newRequest method pathStr body)
  pure (c.buildRequest w method pathStr body)

/-- Go `(*Client).Do`, with the call recorded. -/
def Client.Do (w : World) (_c : Client) (req : Request) : Act (Except GoError Response) := do
  emit (.httpDo req)
  pure (w.roundTrip req)

/-! ## `command.go`: helpers -/

/-- Go `strings.Index` on the rest of the input, `i` being the offset of that
rest: the offset of the first occurrence of `sub`, or `-1`. -/
def stringsIndexFrom (sub : List Char) : List Char → Nat → Int
  | [], i => if sub = [] then (i : Int) else -1
  | c :: cs, i =>
    if sub.isPrefixOf (c :: cs) then (i : Int) else stringsIndexFrom sub cs (i + 1)

/-- Go `strings.Index(s, sub)`. -/
def stringsIndex (s sub : String) : Int :=
  stringsIndexFrom sub.toList s.toList 0

/-- Go `pp`, given what `client.Do` returned.  The response it hands back is
dropped: no caller reads it. -/
def pp (w : World) (r : Except GoError Response) : Act (Option GoError) :=
  match r with
  | .error err => pure (some err)
  | .ok resp => do
    emit (.logPrintln resp.Status)
    match resp.Body with
    | .error err => pure (some err)
    | .ok src =>
      let index := stringsIndex resp.ContentType "json"
      if index > 0 then
        match w.jsonIndent src with
        | .error err => pure (some err)
        | .ok b => do
          emit (.fmtPrintln b)
          pure none
      else do
        emit (.fmtPrintln src)
        pure none

/-- Go `(*multipart.Writer).FormDataContentType`. -/
def formDataContentType (w : World) : String :=
  "multipart/form-data; boundary=" ++ w.boundary

/-- Go `http.Header.Set`. -/
def headerSet (h : List (String × String)) (key value : String) : List (String × String) :=
  h.filter (fun kv => kv.1 ≠ key) ++ [(key, value)]

/-- Go `writeFileField` on a multipart writer whose parts so far are `mw`:
the parts afterwards, or the error.  `CreateFormField` writes into a
`bytes.Buffer` and cannot fail; it comes before `os.Open`. -/
def writeFileField (w : World) (mw : List Part) (fieldName filePath : String) :
    Act (Except GoError (List Part)) := do
  emit (.osOpen filePath)
  match w.osOpen filePath with
  | .error err => pure (.error err)
  | .ok file =>
    match file with
    | .error err => pure (.error err)
    | .ok content => pure (.ok (mw ++ [⟨fieldName, content⟩]))

/-- Go `fmt` white space (`isSpace` of `fmt/scan.go`). -/
def isSpace (c : Char) : Bool :=
  let n := c.toNat
  (0x09 ≤ n && n ≤ 0x0d) || n == 0x20 || n == 0x85 || n == 0xa0 || n == 0x1680 ||
  (0x2000 ≤ n && n ≤ 0x200a) || n == 0x2028 || n == 0x2029 || n == 0x202f ||
  n == 0x205f || n == 0x3000

/-- The `SkipSpace` of `fmt.Scanf`: drops leading white space; a newline is
an error (`none`), as newlines in the input must match the format. -/
def skipSpace : List Char → Option (List Char)
  | [] => some []
  | c :: cs =>
    if c = '\n' then none
    else if isSpace c then skipSpace cs
    else some (c :: cs)

/-- Go `fmt.Scanf("%s", &y)` with `y` empty before the call: the value of
`y` afterwards.  It is the first word of the line, or stays empty on an
error (a newline or the end of input before any word). -/
def scanfWord (input : String) : String :=
  match skipSpace input.toList with
  | none => ""
  | some rest => String.mk (rest.takeWhile (fun c => !isSpace c))

/-- Go `args[i]`. -/
def index (args : List String) (i : Nat) : Act String :=
  match args.get? i with
  | some a => pure a
  | none => goPanic .indexOutOfRange

/-- Go `args[i:]`. -/
def sliceFrom (args : List String) (i : Nat) : Act (List String) :=
  if i ≤ args.length then pure (args.drop i) else goPanic .indexOutOfRange

/-- Go `cmd.Flag.Lookup(name).Value.Get().(string)`. -/
def flagString (cmd : Command) (name : String) : Act String :=
  match cmd.lookup name with
  | none => goPanic .nilDereference
  | some (.str s) => pure s
  | some (.bool _) => goPanic .typeAssertion

/-- Go `cmd.Flag.Lookup(name).Value.Get().(bool)`. -/
def flagBool (cmd : Command) (name : String) : Act Bool :=
  match cmd.lookup name with
  | none => goPanic .nilDereference
  | some (.bool b) => pure b
  | some (.str _) => goPanic .typeAssertion

/-- The common tail of the handlers:
`if _, err := pp(client.Do(req)); err != nil { return err }`. -/
def doAndPrint (w : World) (req : Request) : Act Unit := do
  let r ← (client w).Do w req
  let err ← pp w r
  check err

/-! ## `command.go`: descriptors -/

/-- Go `makeRegisterCmd`, with the values the flags hold after parsing. -/
def makeRegisterCmd (name base publicKey userData : String) (wait : Bool) : Command :=
  { UsageLine := "register [options]",
    Flag := [("name", .str name), ("base", .str base), ("public-key", .str publicKey),
             ("user-data", .str userData), ("wait", .bool wait)] }

def listCmd : Command := { UsageLine := "list", Flag := [] }

def configCmd : Command := { UsageLine := "config", Flag := [] }

def infoCmd : Command := { UsageLine := "info <name>", Flag := [] }

def startCmd : Command := { UsageLine := "start <name>", Flag := [] }

def stopCmd : Command := { UsageLine := "stop <name>", Flag := [] }

def forceStopCmd : Command := { UsageLine := "force_stop <name>", Flag := [] }

/-- Go `makeRemoveCmd`, with the value the `yes` flag holds after parsing. -/
def makeRemoveCmd (yes : Bool) : Command :=
  { UsageLine := "remove <name>", Flag := [("yes", .bool yes)] }

def publicKeyCmd : Command := { UsageLine := "public_key <name> [file]", Flag := [] }

def userDataCmd : Command := { UsageLine := "user_data <name> [file]", Flag := [] }

def sshCmd : Command := { UsageLine := "ssh <name> ...", Flag := [] }

/-! ## `command.go`: handlers -/

def runListCmd (w : World) (cmd : Command) (args : List String) : Act (Option GoError) := do
  check (validateCmdArgs cmd args)
  let req ← orReturn (← (client w).NewRequest w "GET" "vm/list" none)
  doAndPrint w req
  pure none

def runConfigCmd (w : World) (cmd : Command) (args : List String) : Act (Option GoError) := do
  check (validateCmdArgs cmd args)
  let req ← orReturn (← (client w).NewRequest w "GET" "config" none)
  doAndPrint w req
  pure none

def runInfoCmd (w : World) (cmd : Command) (args : List String) : Act (Option GoError) := do
  check (validateCmdArgs cmd args)
  let name ← index args 0
  let req ← orReturn (← (client w).NewRequest w "GET" ("vm/info/" ++ name) none)
  doAndPrint w req
  pure none

def runPostHandleNameCmd (w : World) (cmd : Command) (args : List String) :
    Act (Option GoError) := do
  check (validateCmdArgs cmd args)
  let name ← index args 0
  let req ← orReturn (← (client w).NewRequest w "POST" ("vm/" ++ cmd.Name ++ "/" ++ name) none)
  doAndPrint w req
  pure none

/-- Go `runRemoveCmd`: without `--yes` it prompts, scans one word into `y`
and calls `os.Exit(1)` unless `y` is `y` or `Y`. -/
def runRemoveCmd (w : World) (cmd : Command) (args : List String) : Act (Option GoError) := do
  check (validateCmdArgs cmd args)
  let yes ← flagBool cmd "yes"
  let name ← index args 0
  if !yes then
    emit (.fmtPrintf ("Really remove " ++ name ++ "? [y/N]\n"))
    emit .fmtScanf
    let y := scanfWord w.stdin
    if y ≠ "y" ∧ y ≠ "Y" then
      osExit 1
  let req ← orReturn (← (client w).NewRequest w "POST" ("vm/remove/" ++ name) none)
  doAndPrint w req
  pure none

/-- Go `runRegisterCmd`.  The multipart writer fills a `bytes.Buffer`, so
`WriteField` and `Close` cannot fail; `mw` is the list of parts written. -/
def runRegisterCmd (w : World) (cmd : Command) (args : List String) : Act (Option GoError) := do
  check (validateCmdArgs cmd args)
  let name ← flagString cmd "name"
  let base ← flagString cmd "base"
  if name = "" ∨ base = "" then
    returnErr ("Usage: " ++ cmd.UsageLine)
  let mw : List Part := [⟨"name", name⟩, ⟨"base", base⟩]
  let publicKey ← flagString cmd "public-key"
  let mw ← if publicKey ≠ "" then
      orReturn (← writeFileField w mw "public_key" publicKey)
    else pure mw
  let userData ← flagString cmd "user-data"
  let mw ← if userData ≠ "" then
      orReturn (← writeFileField w mw "user_data" userData)
    else pure mw
  let req ← orReturn (← (client w).NewRequest w "POST" "vm/register" (some mw))
  let req := { req with Header := headerSet req.Header "Content-Type" (formDataContentType w) }
  doAndPrint w req
  let wait ← flagBool cmd "wait"
  if !wait then
    pure none
  else
    emit (.logPrintln "waiting for vm boot up...")
    let req ← orReturn (← (client w).NewRequest w "GET" ("notify/" ++ name) none)
    doAndPrint w req
    pure none

/-- Go `runPostFileHandleNameCmd`: the `switch` is on `len(args)`. -/
def runPostFileHandleNameCmd (w : World) (cmd : Command) (args : List String) :
    Act (Option GoError) := do
  check (validateCmdArgs cmd args)
  let cmdName := cmd.Name
  let pathStr := cmdName ++ "/" ++ (← index args 0)
  match args.length with
  | 1 =>
    let req ← orReturn (← (client w).NewRequest w "GET" pathStr none)
    doAndPrint w req
    pure none
  | 2 =>
    let file ← index args 1
    let mw ← orReturn (← writeFileField w [] cmdName file)
    let req ← orReturn (← (client w).NewRequest w "POST" pathStr (some mw))
    let req := { req with Header := headerSet req.Header "Content-Type" (formDataContentType w) }
    doAndPrint w req
    pure none
  | _ => returnErr "invalid arguments"

/-- Go `m["ip_addr"].(string)`: a missing key gives the nil interface, and
the assertion panics on anything but a string. -/
def ipAddr (m : List (String × JsonValue)) : Act String :=
  match m.lookup "ip_addr" with
  | some (JsonValue.str s) => pure s
  | _ => goPanic .typeAssertion

/-- Go `runSshCmd`.  In the branch for a status other than 200 the source
returns the variable `err`, which holds the nil error of the `client.Do`
that has just succeeded. -/
def runSshCmd (w : World) (cmd : Command) (args : List String) : Act (Option GoError) := do
  check (validateCmdArgs cmd args)
  let req ← orReturn (← (client w).NewRequest w "GET" ("vm/info/" ++ (← index args 0)) none)
  let resp ← orReturn (← (client w).Do w req)
  -- past this point the variable `err` of the source holds nil
  let err : Option GoError := none
  if resp.StatusCode ≠ 200 then
    let _ ← pp w (.ok resp)
    pure err
  else
    let m ← orReturn (resp.Body.bind w.jsonDecode)
    emit (.lookPath "ssh")
    let cmdPath ← orReturn (w.lookPath "ssh")
    let execArgs := [← ipAddr m] ++ (← sliceFrom args 1)
    emit (.execRun cmdPath execArgs)
    pure (w.runProcess cmdPath execArgs)

/-! ## Quantities the statements below are about -/

/-- The number of tokens the pattern `must` matches. -/
def countMust (tokens : List (List Char)) : Nat :=
  tokens.countP mustMatch

/-- The number of tokens the pattern `option` matches. -/
def countOption (tokens : List (List Char)) : Nat :=
  tokens.countP optionMatch

/-- The tokens ahead of the first `...` token (all of them when there is none). -/
def beforeVariadic (tokens : List (List Char)) : List (List Char) :=
  tokens.takeWhile (fun t => t ≠ dots)

/-! ## Placeholders, in the words of the usage grammar

These definitions do not use the validator's patterns: they say what a
placeholder is from the grammar of usage lines, a bracket, a name, a bracket. -/

/-- A character of a placeholder name: an ASCII letter, a digit or an
underscore. -/
def isNameChar (c : Char) : Bool :=
  decide (('a' ≤ c ∧ c ≤ 'z') ∨ ('A' ≤ c ∧ c ≤ 'Z') ∨ ('0' ≤ c ∧ c ≤ '9') ∨ c = '_')

/-- The token is a placeholder: the opening bracket, a name of one or more
name characters, the closing bracket, and nothing before or after. -/
def isPlaceholder (opening close : Char) (token : List Char) : Bool :=
  match token with
  | [] => false
  | c :: rest =>
    c == opening && rest.getLast? == some close && !rest.dropLast.isEmpty &&
      rest.dropLast.all isNameChar

/-- The token contains a placeholder: some contiguous part of it is one. -/
def containsPlaceholder (opening close : Char) (token : List Char) : Bool :=
  (token.tails.flatMap List.inits).any (isPlaceholder opening close)

/-- The number of tokens that are `<name>` placeholders. -/
def placeholdersRequired (tokens : List (List Char)) : Nat :=
  tokens.countP (isPlaceholder '<' '>')

/-- The number of tokens that are `[name]` placeholders. -/
def placeholdersOptional (tokens : List (List Char)) : Nat :=
  tokens.countP (isPlaceholder '[' ']')

/-- The number of tokens that contain a `<name>` placeholder. -/
def containedRequired (tokens : List (List Char)) : Nat :=
  tokens.countP (containsPlaceholder '<' '>')

/-- The number of tokens that contain a `[name]` placeholder. -/
def containedOptional (tokens : List (List Char)) : Nat :=
  tokens.countP (containsPlaceholder '[' ']')

/-- A usage line with a placeholder inside a longer token. -/
def innerPlaceholderCmd : Command := { UsageLine := "attach disk=<name>", Flag := [] }

/-- A usage line with a placeholder inside a longer token, ahead of `...`. -/
def innerPlaceholderVariadicCmd : Command :=
  { UsageLine := "run env=<name> ...", Flag := [] }

/-- A trace of output only: log lines and lines on standard output. -/
def Quiet (t : List Event) : Prop :=
  ∀ e ∈ t, (∃ s, e = .logPrintln s) ∨ (∃ s, e = .fmtPrintln s)

/-- The first token of the usage line. -/
def firstToken (cmd : Command) : String :=
  String.mk ((usageTokens cmd.UsageLine).headD [])

/-- A world in which every outside call succeeds: the server answers every
request with `200 OK` and a JSON object, and the user types `yes`. -/
def demoWorld : World :=
  { endpoint := "http://host/api/",
    urlParse := fun p => .ok p,
    resolveReference := fun b r => b ++ r,
    httpNewRequest := fun _ _ => none,
    roundTrip := fun _ => .ok ⟨"200 OK", 200, "application/json", .ok "\x7b\"a\":1\x7d"⟩,
    osOpen := fun _ => .ok (.ok "ssh-rsa AAAA"),
    boundary := "xyz",
    stdin := "yes\n",
    jsonIndent := fun _ => .ok "\x7b\n    \"a\": 1\n\x7d",
    jsonDecode := fun _ => .ok [("ip_addr", .str "10.0.0.1")],
    lookPath := fun _ => .ok "/usr/bin/ssh",
    runProcess := fun _ _ => none }

/-- The world of `demoWorld` with a server that answers every request with
`404 Not Found`. -/
def notFoundWorld : World :=
  { demoWorld with
    roundTrip := fun _ => .ok ⟨"404 Not Found", 404, "text/plain", .ok "no such vm"⟩ }

/-- A response whose `Content-Type` header is the bare word `json`. -/
def bareJsonResponse : Response :=
  ⟨"200 OK", 200, "json", .ok "\x7b\"a\":1\x7d"⟩

/-- The computation does not end in an index-out-of-range panic. -/
structure InBounds {α : Type} (m : Act α) : Prop where
  step_ne : m.step ≠ .done (.panicked .indexOutOfRange)

/-- The descriptors whose handler reads `args[0]`: `info`, `start`, `stop`,
`force_stop`, `remove`, `public_key`, `user_data` and `ssh`. -/
def readsFirstArg (cmd : Command) : Prop :=
  cmd = infoCmd ∨ cmd = startCmd ∨ cmd = stopCmd ∨ cmd = forceStopCmd ∨
  (∃ yes, cmd = makeRemoveCmd yes) ∨ cmd = publicKeyCmd ∨ cmd = userDataCmd ∨ cmd = sshCmd

/-! ## The validator in closed form -/

theorem mustMatch_dots : mustMatch dots = false := by decide

theorem optionMatch_dots : optionMatch dots = false := by decide

theorem validateLoop_no_dots (argc : Nat) :
    ∀ (tokens : List (List Char)) (m o : Nat), dots ∉ tokens →
      validateLoop argc tokens m o = some (m + countMust tokens, o + countOption tokens) := by
  intro tokens
  induction tokens with
  | nil => intro m o _; simp [validateLoop, countMust, countOption]
  | cons a rest ih =>
    intro m o h
    have ha : a ≠ dots := fun e => h (by simp [e])
    have hr : dots ∉ rest := fun e => h (by simp [e])
    simp only [validateLoop, ha, false_and, if_false]
    rw [ih _ _ hr]
    simp only [countMust, countOption, List.countP_cons]
    congr 2 <;> split <;> omega

theorem validateLoop_stuck (argc : Nat) :
    ∀ (tokens : List (List Char)) (m o : Nat), argc < m →
      ∃ m' o', validateLoop argc tokens m o = some (m', o') ∧ m ≤ m' := by
  intro tokens
  induction tokens with
  | nil => intro m o _; exact ⟨m, o, rfl, le_refl m⟩
  | cons a rest ih =>
    intro m o h
    have hm : m ≤ (if mustMatch a then m + 1 else m) := by split <;> omega
    have hn : ¬ (a = dots ∧ (if mustMatch a then m + 1 else m) ≤ argc) := by
      intro hc; omega
    simp only [validateLoop, hn, if_false]
    obtain ⟨m', o', e, hle⟩ := ih (if mustMatch a then m + 1 else m)
      (if optionMatch a then o + 1 else o) (by omega)
    exact ⟨m', o', e, by omega⟩

theorem validateLoop_first_dots (argc : Nat) (post : List (List Char)) :
    ∀ (pre : List (List Char)) (m o : Nat), dots ∉ pre →
      validateLoop argc (pre ++ dots :: post) m o =
        if m + countMust pre ≤ argc then none
        else validateLoop argc post (m + countMust pre) (o + countOption pre) := by
  intro pre
  induction pre with
  | nil =>
    intro m o _
    simp [validateLoop, countMust, countOption, mustMatch_dots, optionMatch_dots]
  | cons a rest ih =>
    intro m o h
    have ha : a ≠ dots := fun e => h (by simp [e])
    have hr : dots ∉ rest := fun e => h (by simp [e])
    have step : validateLoop argc ((a :: rest) ++ dots :: post) m o =
        validateLoop argc (rest ++ dots :: post) (if mustMatch a then m + 1 else m)
          (if optionMatch a then o + 1 else o) := by
      simp only [List.cons_append, validateLoop, ha, false_and, if_false]
      rfl
    rw [step, ih _ _ hr]
    simp only [countMust, countOption, List.countP_cons]
    have e1 : (if mustMatch a then m + 1 else m) + List.countP mustMatch rest
        = m + (List.countP mustMatch rest + if mustMatch a = true then 1 else 0) := by
      split <;> omega
    have e2 : (if optionMatch a then o + 1 else o) + List.countP optionMatch rest
        = o + (List.countP optionMatch rest + if optionMatch a = true then 1 else 0) := by
      split <;> omega
    rw [e1, e2]

theorem validateCmdArgs_eq_of_no_dots (cmd : Command) (args : List String)
    (h : dots ∉ usageTokens cmd.UsageLine) :
    validateCmdArgs cmd args =
      if countMust (usageTokens cmd.UsageLine) ≤ args.length ∧
          args.length ≤ countMust (usageTokens cmd.UsageLine) +
            countOption (usageTokens cmd.UsageLine)
      then none else some (usageError cmd) := by
  simp only [validateCmdArgs, validateLoop_no_dots _ _ _ _ h, Nat.zero_add]

theorem validateCmdArgs_eq_of_first_dots (cmd : Command) (args : List String)
    (pre post : List (List Char)) (hs : usageTokens cmd.UsageLine = pre ++ dots :: post)
    (hp : dots ∉ pre) :
    validateCmdArgs cmd args =
      if countMust pre ≤ args.length then none else some (usageError cmd) := by
  simp only [validateCmdArgs, hs, validateLoop_first_dots _ _ _ _ _ hp, Nat.zero_add]
  by_cases hc : countMust pre ≤ args.length
  · simp [hc]
  · obtain ⟨m', o', e, hle⟩ :=
      validateLoop_stuck args.length post (countMust pre) (countOption pre) (by omega)
    have hn : ¬ (m' ≤ args.length ∧ args.length ≤ m' + o') := by omega
    simp [hc, e, hn]

/-- The usage line occurs in the error of `validateCmdArgs`, at its end. -/
theorem usageError_contains (cmd : Command) :
    cmd.UsageLine.toList <:+ (usageError cmd).toList := by
  refine ⟨"invalid argument\nUsage: ".toList, ?_⟩
  simp [usageError]

theorem beforeVariadic_of_no_dots (tokens : List (List Char)) (h : dots ∉ tokens) :
    beforeVariadic tokens = tokens := by
  unfold beforeVariadic
  rw [List.takeWhile_eq_self_iff]
  intro t ht
  have : t ≠ dots := fun e => h (e ▸ ht)
  simpa using this

theorem split_at_first_dots (tokens : List (List Char)) (h : dots ∈ tokens) :
    ∃ post, tokens = beforeVariadic tokens ++ dots :: post ∧ dots ∉ beforeVariadic tokens := by
  induction tokens with
  | nil => simp at h
  | cons a rest ih =>
    by_cases ha : a = dots
    · refine ⟨rest, ?_, ?_⟩ <;> simp [beforeVariadic, ha]
    · have hr : dots ∈ rest := by
        rcases List.mem_cons.mp h with e | e
        · exact absurd e.symm ha
        · exact e
      obtain ⟨post, e1, e2⟩ := ih hr
      refine ⟨post, ?_, ?_⟩
      · simp only [beforeVariadic, List.takeWhile_cons, ne_eq, ha, not_false_eq_true,
          decide_True, if_true, List.cons_append]
        exact congrArg (List.cons a) e1
      · simp only [beforeVariadic, List.takeWhile_cons, ne_eq, ha, not_false_eq_true,
          decide_True, if_true, List.mem_cons, not_or]
        exact ⟨fun e => ha e.symm, e2⟩

theorem validateCmdArgs_lower_bound (cmd : Command) (args : List String)
    (h : validateCmdArgs cmd args = none) :
    countMust (beforeVariadic (usageTokens cmd.UsageLine)) ≤ args.length := by
  by_cases hd : dots ∈ usageTokens cmd.UsageLine
  · obtain ⟨post, e1, e2⟩ := split_at_first_dots _ hd
    rw [validateCmdArgs_eq_of_first_dots cmd args _ post e1 e2] at h
    by_contra hc
    simp [hc] at h
  · rw [validateCmdArgs_eq_of_no_dots cmd args hd] at h
    rw [beforeVariadic_of_no_dots _ hd]
    by_contra hc
    have : ¬ (countMust (usageTokens cmd.UsageLine) ≤ args.length ∧
          args.length ≤ countMust (usageTokens cmd.UsageLine) +
            countOption (usageTokens cmd.UsageLine)) := fun x => hc x.1
    simp [this] at h

/-! ## Traces -/

section Traces

variable {α β : Type}

@[simp] theorem Act.pure_step (a : α) : (pure a : Act α).step = .next a := rfl

@[simp] theorem Act.pure_trace (a : α) : (pure a : Act α).trace = [] := rfl

theorem Act.bind_eq (m : Act α) (f : α → Act β) : m >>= f = Act.bind m f := rfl

@[simp] theorem Act.bind_next (a : α) (t : List Event) (f : α → Act β) :
    (Act.mk (.next a) t) >>= f = ⟨(f a).step, t ++ (f a).trace⟩ := rfl

@[simp] theorem Act.bind_done (o : Outcome) (t : List Event) (f : α → Act β) :
    (Act.mk (.done o) t) >>= f = ⟨.done o, t⟩ := rfl

@[simp] theorem Act.pure_bind (a : α) (f : α → Act β) : (pure a : Act α) >>= f = f a := by
  show Act.bind ⟨.next a, []⟩ f = f a
  simp [Act.bind]

theorem Act.trace_bind (m : Act α) (f : α → Act β) :
    (m >>= f).trace = m.trace ++
      (match m.step with
       | .next a => (f a).trace
       | .done _ => []) := by
  show (Act.bind m f).trace = _
  unfold Act.bind
  cases m.step <;> simp

theorem Act.step_bind (m : Act α) (f : α → Act β) :
    (m >>= f).step =
      (match m.step with
       | .next a => (f a).step
       | .done o => .done o) := by
  show (Act.bind m f).step = _
  unfold Act.bind
  cases m.step <;> simp

@[simp] theorem sent_append (s t : List Event) : sent (s ++ t) = sent s ++ sent t := by
  induction s with
  | nil => rfl
  | cons e s ih => cases e <;> simp [sent, ih]

@[simp] theorem built_append (s t : List Event) : built (s ++ t) = built s ++ built t := by
  induction s with
  | nil => rfl
  | cons e s ih => cases e <;> simp [built, ih]

@[simp] theorem opened_append (s t : List Event) : opened (s ++ t) = opened s ++ opened t := by
  induction s with
  | nil => rfl
  | cons e s ih => cases e <;> simp [opened, ih]

@[simp] theorem started_append (s t : List Event) :
    started (s ++ t) = started s ++ started t := by
  induction s with
  | nil => rfl
  | cons e s ih => cases e <;> simp [started, ih]

@[simp] theorem scans_append (s t : List Event) : scans (s ++ t) = scans s + scans t := by
  induction s with
  | nil => simp [scans]
  | cons e s ih => cases e <;> simp [scans, ih]; omega

theorem Quiet.nil : Quiet [] := by
  intro e he
  simp at he

theorem Quiet.projections {t : List Event} (h : Quiet t) :
    sent t = [] ∧ built t = [] ∧ opened t = [] ∧ started t = [] ∧ scans t = 0 := by
  induction t with
  | nil => simp [sent, built, opened, started, scans]
  | cons e t ih =>
    have ht : Quiet t := fun x hx => h x (List.mem_cons_of_mem _ hx)
    obtain ⟨h1, h2, h3, h4, h5⟩ := ih ht
    rcases h e (List.mem_cons_self _ _) with ⟨s, rfl⟩ | ⟨s, rfl⟩ <;>
      simp [sent, built, opened, started, scans, h1, h2, h3, h4, h5]

/-- What `pp` does: it only writes output, and it always returns. -/
theorem pp_quiet (w : World) (r : Except GoError Response) :
    Quiet (pp w r).trace ∧ ∃ err, (pp w r).step = .next err := by
  unfold pp
  split
  · exact ⟨Quiet.nil, _, rfl⟩
  · rename_i resp
    simp only [Act.trace_bind, Act.step_bind, emit]
    split
    · refine ⟨?_, _, rfl⟩
      intro e he
      simp at he
      exact Or.inl ⟨_, he⟩
    · split
      · split
        · refine ⟨?_, _, rfl⟩
          intro e he
          simp at he
          exact Or.inl ⟨_, he⟩
        · refine ⟨?_, _, rfl⟩
          intro e he
          simp [Act.trace_bind, emit] at he
          rcases he with he | he
          · exact Or.inl ⟨_, he⟩
          · exact Or.inr ⟨_, he⟩
      · refine ⟨?_, _, rfl⟩
        intro e he
        simp [Act.trace_bind, emit] at he
        rcases he with he | he
        · exact Or.inl ⟨_, he⟩
        · exact Or.inr ⟨_, he⟩

/-- What the common tail of the handlers does: one request goes out, output
follows, and the handler either goes on or returns the error. -/
theorem doAndPrint_spec (w : World) (req : Request) :
    ∃ t, (doAndPrint w req).trace = .httpDo req :: t ∧ Quiet t ∧
      ((doAndPrint w req).step = .next () ∨
        ∃ e, (doAndPrint w req).step = .done (.returned (some e))) := by
  obtain ⟨hq, err, he⟩ := pp_quiet w (w.roundTrip req)
  refine ⟨(pp w (w.roundTrip req)).trace, ?_, hq, ?_⟩
  · simp [doAndPrint, Client.Do, Act.trace_bind, emit, he]
    cases err <;> simp [check, returnErr]
  · simp [doAndPrint, Client.Do, Act.step_bind, emit, he]
    cases err <;> simp [check, returnErr]

end Traces


/-- The shape every handler ends in: build a request, send it, print the
answer, return nil.  `k` is what the handler does to the request in between
(setting the content type, or nothing). -/
theorem request_tail_spec (w : World) (method pathStr : String) (body : Option (List Part))
    (k : Request → Request) (m : Act (Option GoError))
    (hm : m = ((client w).NewRequest w method pathStr body >>= fun r =>
        orReturn r >>= fun req => doAndPrint w (k req) >>= fun _ => pure none)) :
    built m.trace = [(method, pathStr, body)] ∧
    sent m.trace = (match (client w).buildRequest w method pathStr body with
      | .ok req => [k req]
      | .error _ => []) ∧
    opened m.trace = [] ∧ started m.trace = [] ∧ scans m.trace = 0 ∧
    ∃ e, m.outcome = .returned e := by
  cases hb : (client w).buildRequest w method pathStr body with
  | error err =>
    have hm2 : m = ⟨.done (.returned (some err)), [.newRequest method pathStr body]⟩ := by
      rw [hm]
      simp [Client.NewRequest, emit, Act.bind_eq, Act.bind, hb, orReturn, returnErr]
    subst hm2
    simp [built, sent, opened, started, scans, outcome]
  | ok req =>
    obtain ⟨t, ht, hq, hs⟩ := doAndPrint_spec w (k req)
    obtain ⟨h1, h2, h3, h4, h5⟩ := hq.projections
    have hm2 : m = ⟨(doAndPrint w (k req) >>= fun _ => (pure none : Act (Option GoError))).step,
        .newRequest method pathStr body :: .httpDo (k req) :: t⟩ := by
      rw [hm]
      simp [Client.NewRequest, emit, Act.bind_eq, Act.bind, hb, orReturn, returnErr, ht]
      rcases hs with hs | ⟨e, hs⟩ <;> simp [hs]
    subst hm2
    refine ⟨?_, ?_, ?_, ?_, ?_, ?_⟩
    · simp [built, h2]
    · simp [sent, h1]
    · simp [opened, h3]
    · simp [started, h4]
    · simp [scans, h5]
    · rcases hs with hs | ⟨e, hs⟩ <;> simp [outcome, Act.step_bind, hs]

/-! ## The patterns -/

theorem wordsThenClose_run (close : Char) (hclose : isWordChar close = false)
    (post : List Char) :
    ∀ (word : List Char) (seen : Bool), (∀ c ∈ word, isWordChar c = true) →
      (seen = true ∨ word ≠ []) → wordsThenClose close seen (word ++ close :: post) = true := by
  intro word
  induction word with
  | nil =>
    intro seen _ hs
    rcases hs with hs | hs
    · simp [wordsThenClose, hclose, hs]
    · exact absurd rfl hs
  | cons c cs ih =>
    intro seen hw _
    have hc : isWordChar c = true := hw c (List.mem_cons_self _ _)
    have hcs : ∀ x ∈ cs, isWordChar x = true := fun x hx => hw x (List.mem_cons_of_mem _ hx)
    simp only [List.cons_append, wordsThenClose, hc, if_true]
    exact ih true hcs (Or.inl rfl)

/-- The patterns are not anchored: a token matches as soon as a bracketed
word occurs anywhere inside it. -/
theorem matchBracketed_inside (opening close : Char) (hclose : isWordChar close = false)
    (word post : List Char) (hw : ∀ c ∈ word, isWordChar c = true) (hne : word ≠ []) :
    ∀ pre : List Char, matchBracketed opening close (pre ++ opening :: word ++ close :: post) = true := by
  intro pre
  induction pre with
  | nil =>
    have := wordsThenClose_run close hclose post word false hw (Or.inr hne)
    simp [matchBracketed, this]
  | cons c cs ih =>
    have ih2 : matchBracketed opening close (cs ++ opening :: (word ++ close :: post)) = true := by
      simpa using ih
    simp [matchBracketed, ih2]

/-- A token without the opening bracket is a literal for the pattern. -/
theorem matchBracketed_of_not_mem (opening close : Char) :
    ∀ token : List Char, opening ∉ token → matchBracketed opening close token = false := by
  intro token
  induction token with
  | nil => intro _; rfl
  | cons c cs ih =>
    intro h
    have hc : c ≠ opening := fun e => h (by simp [e])
    have hcs : opening ∉ cs := fun e => h (by simp [e])
    simp [matchBracketed, hc, ih hcs]

theorem isNameChar_eq_isWordChar (c : Char) : isNameChar c = isWordChar c := by
  unfold isNameChar isWordChar Char.isAlphanum Char.isAlpha Char.isUpper Char.isLower Char.isDigit
  rw [Bool.eq_iff_iff]
  simp only [decide_eq_true_eq, Bool.or_eq_true, Bool.and_eq_true, beq_iff_eq, Char.le_def,
    ge_iff_le]
  have h1 : 'a'.val = 97 := rfl
  have h2 : 'z'.val = 122 := rfl
  have h3 : 'A'.val = 65 := rfl
  have h4 : 'Z'.val = 90 := rfl
  have h5 : '0'.val = 48 := rfl
  have h6 : '9'.val = 57 := rfl
  rw [h1, h2, h3, h4, h5, h6]
  tauto

/-- A token is a placeholder exactly when it is the opening bracket, a
non-empty name and the closing bracket. -/
theorem isPlaceholder_iff (opening close : Char) (token : List Char) :
    isPlaceholder opening close token = true ↔
      ∃ name, name ≠ [] ∧ (∀ c ∈ name, isNameChar c = true) ∧
        token = opening :: name ++ [close] := by
  constructor
  · intro h
    cases token with
    | nil => simp [isPlaceholder] at h
    | cons c rest =>
      simp only [isPlaceholder, Bool.and_eq_true, beq_iff_eq, Bool.not_eq_true',
        List.isEmpty_eq_false, List.all_eq_true] at h
      obtain ⟨⟨⟨hc, hl⟩, hne⟩, hall⟩ := h
      refine ⟨rest.dropLast, ?_, hall, ?_⟩
      · simpa using hne
      · have := List.dropLast_append_getLast? close (by simp [hl] : close ∈ rest.getLast?)
        rw [hc, List.cons_append, this]
  · rintro ⟨name, hne, hall, rfl⟩
    simp only [isPlaceholder, List.cons_append, List.getLast?_concat, List.dropLast_concat,
      Bool.and_eq_true, beq_iff_eq, Bool.not_eq_true', List.isEmpty_eq_false, List.all_eq_true]
    exact ⟨⟨⟨trivial, trivial⟩, by simpa using hne⟩, hall⟩

/-- A token contains a placeholder exactly when it splits into a front
part, the opening bracket, a non-empty name, the closing bracket and a rest. -/
theorem containsPlaceholder_iff (opening close : Char) (token : List Char) :
    containsPlaceholder opening close token = true ↔
      ∃ pre name post, name ≠ [] ∧ (∀ c ∈ name, isNameChar c = true) ∧
        token = pre ++ opening :: name ++ close :: post := by
  unfold containsPlaceholder
  simp only [List.any_eq_true, List.mem_flatMap, List.mem_tails, List.mem_inits,
    isPlaceholder_iff]
  constructor
  · rintro ⟨s, ⟨t, ⟨pre, rfl⟩, ⟨post, rfl⟩⟩, name, hne, hall, rfl⟩
    exact ⟨pre, name, post, hne, hall, by simp⟩
  · rintro ⟨pre, name, post, hne, hall, rfl⟩
    refine ⟨opening :: name ++ [close], ⟨opening :: name ++ close :: post, ⟨pre, by simp⟩,
      ⟨post, by simp⟩⟩, name, hne, hall, rfl⟩

theorem wordsThenClose_shape (close : Char) :
    ∀ (l : List Char) (seen : Bool), wordsThenClose close seen l = true →
      ∃ name post, (seen = true ∨ name ≠ []) ∧ (∀ c ∈ name, isWordChar c = true) ∧
        l = name ++ close :: post := by
  intro l
  induction l with
  | nil => intro seen h; simp [wordsThenClose] at h
  | cons c cs ih =>
    intro seen h
    by_cases hc : isWordChar c = true
    · simp only [wordsThenClose, hc, if_true] at h
      obtain ⟨name, post, -, hall, rfl⟩ := ih true h
      refine ⟨c :: name, post, Or.inr (by simp), ?_, by simp⟩
      intro x hx
      rcases List.mem_cons.mp hx with rfl | hx
      · exact hc
      · exact hall x hx
    · rw [wordsThenClose, if_neg hc, Bool.and_eq_true, beq_iff_eq] at h
      obtain ⟨hs, rfl⟩ := h
      exact ⟨[], cs, Or.inl hs, by simp, by simp⟩

theorem matchBracketed_shape (opening close : Char) :
    ∀ token : List Char, matchBracketed opening close token = true →
      ∃ pre name post, name ≠ [] ∧ (∀ c ∈ name, isWordChar c = true) ∧
        token = pre ++ opening :: name ++ close :: post := by
  intro token
  induction token with
  | nil => intro h; simp [matchBracketed] at h
  | cons c cs ih =>
    intro h
    simp only [matchBracketed, Bool.or_eq_true, Bool.and_eq_true, beq_iff_eq] at h
    rcases h with ⟨rfl, hw⟩ | h
    · obtain ⟨name, post, hs, hall, rfl⟩ := wordsThenClose_shape close cs false hw
      have hne : name ≠ [] := by
        rcases hs with hs | hs
        · cases hs
        · exact hs
      exact ⟨[], name, post, hne, hall, by simp⟩
    · obtain ⟨pre, name, post, hne, hall, rfl⟩ := ih h
      exact ⟨c :: pre, name, post, hne, hall, by simp⟩

/-- The validator's matcher, both ways: a pattern matches a token exactly
when the token contains a placeholder. -/
theorem matchBracketed_eq_containsPlaceholder (opening close : Char)
    (hclose : isWordChar close = false) (token : List Char) :
    matchBracketed opening close token = containsPlaceholder opening close token := by
  rw [Bool.eq_iff_iff, containsPlaceholder_iff]
  constructor
  · intro h
    obtain ⟨pre, name, post, hne, hall, e⟩ := matchBracketed_shape opening close token h
    exact ⟨pre, name, post, hne, fun c hc => by rw [isNameChar_eq_isWordChar]; exact hall c hc, e⟩
  · rintro ⟨pre, name, post, hne, hall, rfl⟩
    exact matchBracketed_inside opening close hclose name post
      (fun c hc => by rw [← isNameChar_eq_isWordChar]; exact hall c hc) hne pre

theorem countMust_eq_containedRequired (tokens : List (List Char)) :
    countMust tokens = containedRequired tokens := by
  unfold countMust containedRequired
  congr 1
  funext token
  exact matchBracketed_eq_containsPlaceholder '<' '>' (by decide) token

theorem countOption_eq_containedOptional (tokens : List (List Char)) :
    countOption tokens = containedOptional tokens := by
  unfold countOption containedOptional
  congr 1
  funext token
  exact matchBracketed_eq_containsPlaceholder '[' ']' (by decide) token

/-- A token that is a placeholder contains one. -/
theorem containsPlaceholder_of_isPlaceholder (opening close : Char) (token : List Char)
    (h : isPlaceholder opening close token = true) :
    containsPlaceholder opening close token = true := by
  obtain ⟨name, hne, hall, rfl⟩ := (isPlaceholder_iff opening close token).mp h
  exact (containsPlaceholder_iff opening close _).mpr ⟨[], name, [], hne, hall, by simp⟩

theorem placeholdersRequired_le_containedRequired (tokens : List (List Char)) :
    placeholdersRequired tokens ≤ containedRequired tokens :=
  List.countP_mono_left (fun t _ h => containsPlaceholder_of_isPlaceholder '<' '>' t h)

/-- On the usage lines of the program the tokens that contain a placeholder
are the tokens that are one. -/
theorem placeholders_agree_on_descriptors :
    ∀ usage ∈ ["register [options]", "list", "config", "info <name>", "start <name>",
        "stop <name>", "force_stop <name>", "remove <name>", "public_key <name> [file]",
        "user_data <name> [file]", "ssh <name> ..."],
      placeholdersRequired (usageTokens usage) = containedRequired (usageTokens usage) ∧
      placeholdersOptional (usageTokens usage) = containedOptional (usageTokens usage) := by
  decide

theorem validateCmdArgs_register (name base publicKey userData : String) (wait : Bool)
    (args : List String) :
    validateCmdArgs (makeRegisterCmd name base publicKey userData wait) args =
      if args.length ≤ 1 then none
      else some "invalid argument\nUsage: register [options]" := by
  have hd : dots ∉ usageTokens "register [options]" := by decide
  have hm : countMust (usageTokens "register [options]") = 0 := by decide
  have ho : countOption (usageTokens "register [options]") = 1 := by decide
  rw [validateCmdArgs_eq_of_no_dots _ args hd]
  simp only [makeRegisterCmd, hm, ho, Nat.zero_le, true_and, Nat.zero_add]
  rfl

/-! ## The argument validator -/

/-- C1, as the code has it: for a usage line without a `...` token,
`validateCmdArgs` returns nil exactly when `min ≤ len(args) ≤ min + opt`,
with `min` the number of tokens of the usage line that contain a `<name>`
placeholder and `opt` the number that contain a `[name]` placeholder; in
every other case it returns the error whose message is `invalid argument`,
a newline, `Usage: ` and the full usage line. -/
theorem validateCmdArgs_without_variadic (cmd : Command) (args : List String)
    (h : dots ∉ usageTokens cmd.UsageLine) :
    (validateCmdArgs cmd args = none ↔
      containedRequired (usageTokens cmd.UsageLine) ≤ args.length ∧
        args.length ≤ containedRequired (usageTokens cmd.UsageLine) +
          containedOptional (usageTokens cmd.UsageLine)) ∧
    (validateCmdArgs cmd args ≠ none →
      validateCmdArgs cmd args = some ("invalid argument\nUsage: " ++ cmd.UsageLine) ∧
      cmd.UsageLine.toList <:+ ("invalid argument\nUsage: " ++ cmd.UsageLine).toList) := by
  rw [validateCmdArgs_eq_of_no_dots cmd args h, countMust_eq_containedRequired,
    countOption_eq_containedOptional]
  by_cases hc : containedRequired (usageTokens cmd.UsageLine) ≤ args.length ∧
      args.length ≤ containedRequired (usageTokens cmd.UsageLine) +
        containedOptional (usageTokens cmd.UsageLine)
  · simp [hc]
  · simp only [hc, if_false]
    exact ⟨by simp, fun _ => ⟨rfl, usageError_contains cmd⟩⟩

theorem validateCmdArgs_without_variadic_witness :
    dots ∉ usageTokens publicKeyCmd.UsageLine ∧
    containedRequired (usageTokens publicKeyCmd.UsageLine) = 1 ∧
    containedOptional (usageTokens publicKeyCmd.UsageLine) = 1 ∧
    validateCmdArgs publicKeyCmd ["vm1", "id_rsa.pub"] = none ∧
    validateCmdArgs publicKeyCmd ["vm1"] = none ∧
    validateCmdArgs publicKeyCmd [] ≠ none ∧
    validateCmdArgs publicKeyCmd ["vm1", "id_rsa.pub", "extra"] =
      some "invalid argument\nUsage: public_key <name> [file]" ∧
    (mustMatch "a<b".toList = false ∧ mustMatch "<a-b>".toList = false ∧
      mustMatch "<>".toList = false ∧ optionMatch "[a".toList = false) :=
  ⟨by decide, by decide, by decide,
   (validateCmdArgs_without_variadic publicKeyCmd ["vm1", "id_rsa.pub"] (by decide)).1.2
      (by decide),
   (validateCmdArgs_without_variadic publicKeyCmd ["vm1"] (by decide)).1.2 (by decide),
   fun e => absurd
      ((validateCmdArgs_without_variadic publicKeyCmd [] (by decide)).1.1 e) (by decide),
   ((validateCmdArgs_without_variadic publicKeyCmd ["vm1", "id_rsa.pub", "extra"]
      (by decide)).2 (by decide)).1,
   by decide⟩

/-- C1 as stated fails: in `attach disk=<name>` no token is a `<name>` or a
`[name]` placeholder, so `min = opt = 0` and the empty argument list is
within `min ≤ len(args) ≤ min + opt`; the pattern still matches inside
`disk=<name>` and `validateCmdArgs` returns the usage error. -/
theorem validateCmdArgs_inner_placeholder_counted :
    dots ∉ usageTokens innerPlaceholderCmd.UsageLine ∧
    usageTokens innerPlaceholderCmd.UsageLine = ["attach".toList, "disk=<name>".toList] ∧
    placeholdersRequired (usageTokens innerPlaceholderCmd.UsageLine) = 0 ∧
    placeholdersOptional (usageTokens innerPlaceholderCmd.UsageLine) = 0 ∧
    validateCmdArgs innerPlaceholderCmd [] =
      some "invalid argument\nUsage: attach disk=<name>" ∧
    ¬ (validateCmdArgs innerPlaceholderCmd [] = none ↔
      placeholdersRequired (usageTokens innerPlaceholderCmd.UsageLine) ≤ 0 ∧
        0 ≤ placeholdersRequired (usageTokens innerPlaceholderCmd.UsageLine) +
          placeholdersOptional (usageTokens innerPlaceholderCmd.UsageLine)) := by
  decide

/-- C2, as the code has it: for a usage line with a `...` token, `m` being
the number of tokens ahead of the first such token that contain a `<name>`
placeholder, `validateCmdArgs` returns nil for every argument list with
`len(args) ≥ m` and returns the usage error for every argument list with
`len(args) < m`. -/
theorem validateCmdArgs_with_variadic (cmd : Command) (args : List String)
    (h : dots ∈ usageTokens cmd.UsageLine) :
    (containedRequired (beforeVariadic (usageTokens cmd.UsageLine)) ≤ args.length →
      validateCmdArgs cmd args = none) ∧
    (args.length < containedRequired (beforeVariadic (usageTokens cmd.UsageLine)) →
      validateCmdArgs cmd args = some ("invalid argument\nUsage: " ++ cmd.UsageLine)) := by
  obtain ⟨post, e1, e2⟩ := split_at_first_dots _ h
  rw [validateCmdArgs_eq_of_first_dots cmd args _ post e1 e2, countMust_eq_containedRequired]
  constructor
  · intro hc
    simp [hc]
  · intro hc
    have : ¬ containedRequired (beforeVariadic (usageTokens cmd.UsageLine)) ≤ args.length := by
      omega
    simp only [this, if_false]
    rfl

theorem validateCmdArgs_with_variadic_witness :
    dots ∈ usageTokens sshCmd.UsageLine ∧
    containedRequired (beforeVariadic (usageTokens sshCmd.UsageLine)) = 1 ∧
    validateCmdArgs sshCmd [] = some "invalid argument\nUsage: ssh <name> ..." ∧
    validateCmdArgs sshCmd ["vm1"] = none ∧
    validateCmdArgs sshCmd ["vm1", "-v", "uptime"] = none ∧
    (mustMatch "a<b".toList = false ∧ mustMatch "ssh".toList = false) :=
  ⟨by decide, by decide,
   (validateCmdArgs_with_variadic sshCmd [] (by decide)).2 (by decide),
   (validateCmdArgs_with_variadic sshCmd ["vm1"] (by decide)).1 (by decide),
   (validateCmdArgs_with_variadic sshCmd ["vm1", "-v", "uptime"] (by decide)).1 (by decide),
   by decide⟩

/-- C2 as stated fails: in `run env=<name> ...` no token ahead of `...` is a
`<name>` placeholder, so `m = 0` and every argument list has
`len(args) ≥ m`; the pattern still matches inside `env=<name>` and
`validateCmdArgs` returns the usage error for the empty argument list. -/
theorem validateCmdArgs_variadic_inner_placeholder :
    dots ∈ usageTokens innerPlaceholderVariadicCmd.UsageLine ∧
    beforeVariadic (usageTokens innerPlaceholderVariadicCmd.UsageLine) =
      ["run".toList, "env=<name>".toList] ∧
    placeholdersRequired (beforeVariadic (usageTokens innerPlaceholderVariadicCmd.UsageLine)) = 0 ∧
    validateCmdArgs innerPlaceholderVariadicCmd [] =
      some "invalid argument\nUsage: run env=<name> ..." ∧
    ¬ (placeholdersRequired
          (beforeVariadic (usageTokens innerPlaceholderVariadicCmd.UsageLine)) ≤
        ([] : List String).length →
      validateCmdArgs innerPlaceholderVariadicCmd [] = none) := by
  decide

/-- C10: the patterns of `validateCmdArgs` match anywhere inside a token and
the tokens are cut at single spaces, so `[options]` in `register [options]`
counts as an optional positional: for the register descriptor `validateCmdArgs` accepts exactly the
argument lists of length 0 or 1 and rejects every longer one, and for `list`
and `config` it accepts exactly the empty argument list. -/
theorem register_list_config_arity :
    (∀ pre word post : List Char, word ≠ [] → (∀ c ∈ word, isWordChar c = true) →
      mustMatch (pre ++ '<' :: word ++ '>' :: post) = true ∧
      optionMatch (pre ++ '[' :: word ++ ']' :: post) = true) ∧
    usageTokens "a  b" = ["a".toList, [], "b".toList] ∧
    (usageTokens "register [options]" = ["register".toList, "[options]".toList] ∧
      optionMatch "[options]".toList = true) ∧
    (∀ (name base publicKey userData : String) (wait : Bool) (args : List String),
      (validateCmdArgs (makeRegisterCmd name base publicKey userData wait) args = none ↔
        args.length = 0 ∨ args.length = 1) ∧
      (validateCmdArgs (makeRegisterCmd name base publicKey userData wait) args =
          some (usageError (makeRegisterCmd name base publicKey userData wait)) ↔
        2 ≤ args.length)) ∧
    (∀ args : List String, validateCmdArgs listCmd args = none ↔ args = []) ∧
    (∀ args : List String, validateCmdArgs configCmd args = none ↔ args = []) := by
  refine ⟨?_, by decide, by decide, ?_, ?_, ?_⟩
  · intro pre word post hne hw
    exact ⟨matchBracketed_inside '<' '>' (by decide) word post hw hne pre,
      matchBracketed_inside '[' ']' (by decide) word post hw hne pre⟩
  · intro name base publicKey userData wait args
    rw [validateCmdArgs_register]
    have hu : usageError (makeRegisterCmd name base publicKey userData wait) =
        "invalid argument\nUsage: register [options]" := rfl
    rw [hu]
    by_cases hc : args.length ≤ 1
    · simp only [hc, if_true, true_iff]
      refine ⟨by omega, ?_⟩
      constructor
      · intro h; cases h
      · intro h; omega
    · simp only [hc, if_false, true_iff]
      refine ⟨?_, by omega⟩
      constructor
      · intro h; cases h
      · intro h; omega
  · intro args
    rw [validateCmdArgs_eq_of_no_dots listCmd args (by decide)]
    have hm : countMust (usageTokens listCmd.UsageLine) = 0 := by decide
    have ho : countOption (usageTokens listCmd.UsageLine) = 0 := by decide
    rw [hm, ho]
    cases args <;> simp
  · intro args
    rw [validateCmdArgs_eq_of_no_dots configCmd args (by decide)]
    have hm : countMust (usageTokens configCmd.UsageLine) = 0 := by decide
    have ho : countOption (usageTokens configCmd.UsageLine) = 0 := by decide
    rw [hm, ho]
    cases args <;> simp

theorem register_list_config_arity_witness :
    "name".toList ≠ [] ∧ (∀ c ∈ "name".toList, isWordChar c = true) ∧
    mustMatch ("x".toList ++ '<' :: "name".toList ++ '>' :: "y".toList) = true ∧
    optionMatch ("x".toList ++ '[' :: "name".toList ++ ']' :: "y".toList) = true :=
  ⟨by decide, by decide,
   register_list_config_arity.1 "x".toList "name".toList "y".toList (by decide) (by decide)⟩

/-! ## Handlers -/

theorem splitSpace_cons (l : List Char) :
    ∃ rest, splitSpace l = l.takeWhile (fun c => c ≠ ' ') :: rest := by
  induction l with
  | nil => exact ⟨[], rfl⟩
  | cons c cs ih =>
    obtain ⟨rest, hr⟩ := ih
    by_cases hc : c = ' '
    · exact ⟨splitSpace cs, by simp [splitSpace, hc]⟩
    · exact ⟨rest, by simp [splitSpace, hc, hr]⟩

/-- The name of a command is the first token of its usage line. -/
theorem Command.Name_eq_firstToken (cmd : Command) : cmd.Name = firstToken cmd := by
  obtain ⟨rest, hr⟩ := splitSpace_cons cmd.UsageLine.toList
  unfold Command.Name firstToken usageTokens
  rw [hr]
  rfl

theorem buildRequest_ok {w : World} {c : Client} {method pathStr : String}
    {body : Option (List Part)} {req : Request}
    (h : c.buildRequest w method pathStr body = .ok req) :
    req.Method = method ∧ req.Body = body ∧ req.Header = [("User-Agent", c.UserAgent)] := by
  unfold Client.buildRequest at h
  split at h
  · cases h
  · dsimp only at h
    split at h
    · cases h
    · cases h
      exact ⟨rfl, rfl, rfl⟩

/-- A handler that fails validation returns the error at once. -/
theorem check_some_bind {α : Type} (e : GoError) (f : Unit → Act α) :
    (check (some e) >>= f) = ⟨.done (.returned (some e)), []⟩ := rfl

/-- C7: for `start <name>`, `stop <name>` and `force_stop <name>` and an
argument list of exactly one element, `runPostHandleNameCmd` builds exactly
one request, with method POST, the relative path `vm/<cmd>/<name>` (`<cmd>`
the first token of the usage line) and no body, and that request is the only
one it sends; for every other argument count it builds no request and
returns the argument-count error. -/
theorem runPostHandleNameCmd_lifecycle (w : World) (cmd : Command) (args : List String)
    (hc : cmd = startCmd ∨ cmd = stopCmd ∨ cmd = forceStopCmd) :
    (∀ name : String, args = [name] →
      built (runPostHandleNameCmd w cmd args).trace =
        [("POST", "vm/" ++ firstToken cmd ++ "/" ++ name, none)] ∧
      sent (runPostHandleNameCmd w cmd args).trace =
        (match (client w).buildRequest w "POST" ("vm/" ++ firstToken cmd ++ "/" ++ name) none with
         | .ok req => [req]
         | .error _ => []) ∧
      (∀ req ∈ sent (runPostHandleNameCmd w cmd args).trace,
        req.Method = "POST" ∧ req.Body = none)) ∧
    (args.length ≠ 1 →
      (runPostHandleNameCmd w cmd args).trace = [] ∧
      (runPostHandleNameCmd w cmd args).outcome = .returned (some (usageError cmd))) := by
  have hd : dots ∉ usageTokens cmd.UsageLine := by
    rcases hc with rfl | rfl | rfl <;> decide
  have hm : countMust (usageTokens cmd.UsageLine) = 1 := by
    rcases hc with rfl | rfl | rfl <;> decide
  have ho : countOption (usageTokens cmd.UsageLine) = 0 := by
    rcases hc with rfl | rfl | rfl <;> decide
  have hv := validateCmdArgs_eq_of_no_dots cmd args hd
  rw [hm, ho] at hv
  constructor
  · intro name hargs
    subst hargs
    have hv1 : validateCmdArgs cmd [name] = none := by simp [hv]
    have hrun : runPostHandleNameCmd w cmd [name] =
        ((client w).NewRequest w "POST" ("vm/" ++ firstToken cmd ++ "/" ++ name) none >>= fun r =>
          orReturn r >>= fun req => doAndPrint w (id req) >>= fun _ => pure none) := by
      simp only [runPostHandleNameCmd, hv1, Act.check, index, List.get?, Act.pure_bind,
        Command.Name_eq_firstToken, id]
    obtain ⟨h1, h2, -⟩ := request_tail_spec w "POST" _ none id _ hrun
    refine ⟨h1, by simpa using h2, ?_⟩
    intro req hreq
    rw [h2] at hreq
    split at hreq
    · rename_i r hb
      simp only [id, List.mem_singleton] at hreq
      subst hreq
      exact ⟨(buildRequest_ok hb).1, (buildRequest_ok hb).2.1⟩
    · simp at hreq
  · intro hlen
    have hv2 : validateCmdArgs cmd args = some (usageError cmd) := by
      rw [hv]
      have : ¬ (1 ≤ args.length ∧ args.length ≤ 1 + 0) := by omega
      simp [this]
    have hrun : runPostHandleNameCmd w cmd args = ⟨.done (.returned (some (usageError cmd))), []⟩ := by
      simp only [runPostHandleNameCmd, hv2, check_some_bind]
    rw [hrun]
    exact ⟨rfl, rfl⟩

theorem runPostHandleNameCmd_lifecycle_witness :
    (forceStopCmd = startCmd ∨ forceStopCmd = stopCmd ∨ forceStopCmd = forceStopCmd) ∧
    built (runPostHandleNameCmd demoWorld forceStopCmd ["vm1"]).trace =
      [("POST", "vm/force_stop/vm1", none)] ∧
    sent (runPostHandleNameCmd demoWorld forceStopCmd ["vm1"]).trace =
      [⟨"POST", "http://host/api/vm/force_stop/vm1", none, [("User-Agent", "Mezasi/0.1")]⟩] ∧
    (runPostHandleNameCmd demoWorld forceStopCmd ["vm1", "vm2"]).trace = [] ∧
    (runPostHandleNameCmd demoWorld forceStopCmd []).outcome =
      .returned (some "invalid argument\nUsage: force_stop <name>") :=
  ⟨by decide,
   ((runPostHandleNameCmd_lifecycle demoWorld forceStopCmd ["vm1"] (by decide)).1 "vm1" rfl).1,
   ((runPostHandleNameCmd_lifecycle demoWorld forceStopCmd ["vm1"] (by decide)).1 "vm1" rfl).2.1,
   ((runPostHandleNameCmd_lifecycle demoWorld forceStopCmd ["vm1", "vm2"] (by decide)).2
      (by decide)).1,
   ((runPostHandleNameCmd_lifecycle demoWorld forceStopCmd [] (by decide)).2 (by decide)).2⟩


/-- A handler that returns an error ends there. -/
theorem returnErr_bind {α β : Type} (e : GoError) (f : α → Act β) :
    ((returnErr e : Act α) >>= f) = ⟨.done (.returned (some e)), []⟩ := rfl

/-- C4, as the code has it: when the `name` option or the `base` option is
empty, `runRegisterCmd` performs no HTTP request and opens no file (it has no
effect at all), whatever the positional arguments and the other options are;
with at most one positional argument it returns the error
`Usage: register [options]`, and with two or more it returns the
argument-count error of `validateCmdArgs` instead. -/
theorem runRegisterCmd_missing_option (w : World) (name base publicKey userData : String)
    (wait : Bool) (args : List String) (h : name = "" ∨ base = "") :
    (runRegisterCmd w (makeRegisterCmd name base publicKey userData wait) args).trace = [] ∧
    (args.length ≤ 1 →
      (runRegisterCmd w (makeRegisterCmd name base publicKey userData wait) args).outcome =
        .returned (some "Usage: register [options]")) ∧
    (2 ≤ args.length →
      (runRegisterCmd w (makeRegisterCmd name base publicKey userData wait) args).outcome =
        .returned (some "invalid argument\nUsage: register [options]")) := by
  by_cases hc : args.length ≤ 1
  · have hv : validateCmdArgs (makeRegisterCmd name base publicKey userData wait) args = none := by
      rw [validateCmdArgs_register]; simp [hc]
    have hn : flagString (makeRegisterCmd name base publicKey userData wait) "name" = pure name :=
      rfl
    have hb : flagString (makeRegisterCmd name base publicKey userData wait) "base" = pure base :=
      rfl
    have hrun : runRegisterCmd w (makeRegisterCmd name base publicKey userData wait) args =
        ⟨.done (.returned (some "Usage: register [options]")), []⟩ := by
      simp only [runRegisterCmd, hv, check, Act.pure_bind, hn, hb, h, if_true, returnErr_bind]
      rfl
    rw [hrun]
    exact ⟨rfl, fun _ => rfl, fun h2 => absurd hc (by omega)⟩
  · have hv : validateCmdArgs (makeRegisterCmd name base publicKey userData wait) args =
        some "invalid argument\nUsage: register [options]" := by
      rw [validateCmdArgs_register]; simp [hc]
    have hrun : runRegisterCmd w (makeRegisterCmd name base publicKey userData wait) args =
        ⟨.done (.returned (some "invalid argument\nUsage: register [options]")), []⟩ := by
      simp only [runRegisterCmd, hv, check_some_bind]
    rw [hrun]
    exact ⟨rfl, fun h1 => absurd h1 hc, fun _ => rfl⟩

theorem runRegisterCmd_missing_option_witness :
    ("" = "" ∨ "centos7" = "") ∧
    (runRegisterCmd demoWorld (makeRegisterCmd "" "centos7" "id_rsa.pub" "" true) ["x"]).trace = [] ∧
    (runRegisterCmd demoWorld (makeRegisterCmd "" "centos7" "id_rsa.pub" "" true) ["x"]).outcome =
      .returned (some "Usage: register [options]") :=
  ⟨by decide,
   (runRegisterCmd_missing_option demoWorld "" "centos7" "id_rsa.pub" "" true ["x"]
      (by decide)).1,
   (runRegisterCmd_missing_option demoWorld "" "centos7" "id_rsa.pub" "" true ["x"]
      (by decide)).2.1 (by decide)⟩

/-- C4 as stated fails: with two positional arguments and an empty `name`
option the register handler returns the argument-count error, which is not
the error `Usage: register [options]`. -/
theorem runRegisterCmd_two_positionals :
    (runRegisterCmd demoWorld (makeRegisterCmd "" "" "" "" false) ["a", "b"]).outcome =
      .returned (some "invalid argument\nUsage: register [options]") ∧
    (runRegisterCmd demoWorld (makeRegisterCmd "" "" "" "" false) ["a", "b"]).outcome ≠
      .returned (some "Usage: register [options]") := by
  decide


theorem emit_bind {β : Type} (e : Event) (f : Unit → Act β) :
    (emit e >>= f) = ⟨(f ()).step, e :: (f ()).trace⟩ := rfl

theorem Client.NewRequest_eq (w : World) (c : Client) (method pathStr : String)
    (body : Option (List Part)) :
    c.NewRequest w method pathStr body =
      ⟨.next (c.buildRequest w method pathStr body), [.newRequest method pathStr body]⟩ := rfl

theorem Client.Do_eq (w : World) (c : Client) (req : Request) :
    c.Do w req = ⟨.next (w.roundTrip req), [.httpDo req]⟩ := rfl

theorem orReturn_ok {α : Type} (a : α) : orReturn (.ok a : Except GoError α) = pure a := rfl

theorem osExit_bind {α β : Type} (code : Nat) (f : α → Act β) :
    ((osExit code : Act α) >>= f) = ⟨.done (.exited code), []⟩ := rfl

/-- C5, as the code has it: for `remove <name>` with one argument and
without `--yes`, the handler prompts, reads one word from standard input and,
if that word is exactly `y` or `Y`, builds one POST to `vm/remove/<name>`
and sends it; for every other word (also the empty one of an empty line) the
process exits with status 1 and no request is built or sent.  With `--yes`
it builds and sends that one POST without reading any input. -/
theorem runRemoveCmd_confirmation (w : World) (name : String) :
    (built (runRemoveCmd w (makeRemoveCmd true) [name]).trace =
        [("POST", "vm/remove/" ++ name, none)] ∧
      sent (runRemoveCmd w (makeRemoveCmd true) [name]).trace =
        (match (client w).buildRequest w "POST" ("vm/remove/" ++ name) none with
         | .ok req => [req]
         | .error _ => []) ∧
      scans (runRemoveCmd w (makeRemoveCmd true) [name]).trace = 0) ∧
    (scanfWord w.stdin = "y" ∨ scanfWord w.stdin = "Y" →
      built (runRemoveCmd w (makeRemoveCmd false) [name]).trace =
        [("POST", "vm/remove/" ++ name, none)] ∧
      sent (runRemoveCmd w (makeRemoveCmd false) [name]).trace =
        (match (client w).buildRequest w "POST" ("vm/remove/" ++ name) none with
         | .ok req => [req]
         | .error _ => []) ∧
      scans (runRemoveCmd w (makeRemoveCmd false) [name]).trace = 1) ∧
    (scanfWord w.stdin ≠ "y" ∧ scanfWord w.stdin ≠ "Y" →
      (runRemoveCmd w (makeRemoveCmd false) [name]).outcome = .exited 1 ∧
      exitStatus (runRemoveCmd w (makeRemoveCmd false) [name]).outcome = 1 ∧
      built (runRemoveCmd w (makeRemoveCmd false) [name]).trace = [] ∧
      sent (runRemoveCmd w (makeRemoveCmd false) [name]).trace = [] ∧
      scans (runRemoveCmd w (makeRemoveCmd false) [name]).trace = 1) := by
  have hv : ∀ yes, validateCmdArgs (makeRemoveCmd yes) [name] = none := fun _ => rfl
  have hy : ∀ yes, flagBool (makeRemoveCmd yes) "yes" = pure yes := fun _ => rfl
  obtain ⟨h1, h2, -, -, h5, -⟩ := request_tail_spec w "POST" ("vm/remove/" ++ name) none id _ rfl
  refine ⟨?_, ?_, ?_⟩
  · have hrun : runRemoveCmd w (makeRemoveCmd true) [name] =
        ((client w).NewRequest w "POST" ("vm/remove/" ++ name) none >>= fun r =>
          orReturn r >>= fun req => doAndPrint w (id req) >>= fun _ => pure none) := by
      simp only [runRemoveCmd, hv, hy, check, Act.pure_bind, index, List.get?, Bool.not_true,
        Bool.false_eq_true, if_false]
      rfl
    rw [hrun]
    exact ⟨h1, by simpa using h2, h5⟩
  · intro hword
    have hcond : ¬ (scanfWord w.stdin ≠ "y" ∧ scanfWord w.stdin ≠ "Y") := by
      rintro ⟨ha, hb⟩
      rcases hword with e | e
      · exact ha e
      · exact hb e
    have hrun : runRemoveCmd w (makeRemoveCmd false) [name] =
        ⟨((client w).NewRequest w "POST" ("vm/remove/" ++ name) none >>= fun r =>
            orReturn r >>= fun req => doAndPrint w (id req) >>= fun _ =>
              (pure none : Act (Option GoError))).step,
         .fmtPrintf ("Really remove " ++ name ++ "? [y/N]\n") :: .fmtScanf ::
          ((client w).NewRequest w "POST" ("vm/remove/" ++ name) none >>= fun r =>
            orReturn r >>= fun req => doAndPrint w (id req) >>= fun _ =>
              (pure none : Act (Option GoError))).trace⟩ := by
      simp only [runRemoveCmd, hv, hy, check, Act.pure_bind, index, List.get?, Bool.not_false,
        if_true, emit_bind]
      rw [if_neg hcond]
      rfl
    rw [hrun]
    refine ⟨?_, ?_, ?_⟩
    · exact h1
    · exact h2
    · exact congrArg Nat.succ h5
  · intro hcond
    have hrun : runRemoveCmd w (makeRemoveCmd false) [name] =
        ⟨.done (.exited 1),
         [.fmtPrintf ("Really remove " ++ name ++ "? [y/N]\n"), .fmtScanf]⟩ := by
      simp only [runRemoveCmd, hv, hy, check, Act.pure_bind, index, List.get?, Bool.not_false,
        if_true, emit_bind]
      rw [if_pos hcond]
      rfl
    rw [hrun]
    exact ⟨rfl, rfl, rfl, rfl, rfl⟩

theorem runRemoveCmd_confirmation_witness :
    (scanfWord demoWorld.stdin ≠ "y" ∧ scanfWord demoWorld.stdin ≠ "Y") ∧
    (runRemoveCmd demoWorld (makeRemoveCmd false) ["vm1"]).outcome = .exited 1 ∧
    sent (runRemoveCmd demoWorld (makeRemoveCmd false) ["vm1"]).trace = [] ∧
    (scanfWord "Y\n" = "y" ∨ scanfWord "Y\n" = "Y") ∧
    built (runRemoveCmd { demoWorld with stdin := "Y\n" } (makeRemoveCmd false) ["vm1"]).trace =
      [("POST", "vm/remove/vm1", none)] :=
  ⟨by decide,
   ((runRemoveCmd_confirmation demoWorld "vm1").2.2 (by decide)).1,
   ((runRemoveCmd_confirmation demoWorld "vm1").2.2 (by decide)).2.2.2.1,
   by decide,
   ((runRemoveCmd_confirmation { demoWorld with stdin := "Y\n" } "vm1").2.1 (by decide)).1⟩

/-- C5 as stated fails: the user enters `yes`, a line whose first character
is `y`, and the process exits with status 1 without sending a request. -/
theorem runRemoveCmd_yes_word_declined :
    demoWorld.stdin = "yes\n" ∧ demoWorld.stdin.toList.head? = some 'y' ∧
    (runRemoveCmd demoWorld (makeRemoveCmd false) ["vm1"]).outcome = .exited 1 ∧
    sent (runRemoveCmd demoWorld (makeRemoveCmd false) ["vm1"]).trace = [] := by
  decide


theorem writeFileField_ok (w : World) (mw : List Part) (fieldName filePath content : String)
    (h : w.osOpen filePath = .ok (.ok content)) :
    writeFileField w mw fieldName filePath =
      ⟨.next (.ok (mw ++ [⟨fieldName, content⟩])), [.osOpen filePath]⟩ := by
  simp only [writeFileField, emit_bind, h]
  rfl

theorem writeFileField_error (w : World) (mw : List Part) (fieldName filePath : String)
    (h : ∀ content, w.osOpen filePath ≠ .ok (.ok content)) :
    ∃ err, writeFileField w mw fieldName filePath = ⟨.next (.error err), [.osOpen filePath]⟩ := by
  cases ho : w.osOpen filePath with
  | error err =>
    refine ⟨err, ?_⟩
    simp only [writeFileField, emit_bind, ho]
    rfl
  | ok file =>
    cases file with
    | error err =>
      refine ⟨err, ?_⟩
      simp only [writeFileField, emit_bind, ho]
      rfl
    | ok content => exact absurd ho (h content)

/-- C3, as the code has it: for `public_key` and `user_data`, with exactly one
argument the handler builds one GET to `<cmd>/<name>` with no body and sends
it; with exactly two arguments it opens the file and, when the file can be
read, builds one POST to `<cmd>/<name>` whose multipart body has the single
field `<cmd>` holding the file, and sends it with the multipart content type
(when the file cannot be read, no request is built); with any other number
of arguments it has no effect and returns the argument-count error of
`validateCmdArgs`, so the `invalid arguments` branch is never reached. -/
theorem runPostFileHandleNameCmd_by_arity (w : World) (cmd : Command) (args : List String)
    (hc : cmd = publicKeyCmd ∨ cmd = userDataCmd) :
    (∀ name : String, args = [name] →
      built (runPostFileHandleNameCmd w cmd args).trace =
        [("GET", firstToken cmd ++ "/" ++ name, none)] ∧
      sent (runPostFileHandleNameCmd w cmd args).trace =
        (match (client w).buildRequest w "GET" (firstToken cmd ++ "/" ++ name) none with
         | .ok req => [req]
         | .error _ => []) ∧
      opened (runPostFileHandleNameCmd w cmd args).trace = []) ∧
    (∀ name file : String, args = [name, file] →
      opened (runPostFileHandleNameCmd w cmd args).trace = [file] ∧
      (∀ content : String, w.osOpen file = .ok (.ok content) →
        built (runPostFileHandleNameCmd w cmd args).trace =
          [("POST", firstToken cmd ++ "/" ++ name, some [⟨firstToken cmd, content⟩])] ∧
        sent (runPostFileHandleNameCmd w cmd args).trace =
          (match (client w).buildRequest w "POST" (firstToken cmd ++ "/" ++ name)
              (some [⟨firstToken cmd, content⟩]) with
           | .ok req =>
             [{ req with Header := headerSet req.Header "Content-Type" (formDataContentType w) }]
           | .error _ => [])) ∧
      ((∀ content : String, w.osOpen file ≠ .ok (.ok content)) →
        built (runPostFileHandleNameCmd w cmd args).trace = [] ∧
        sent (runPostFileHandleNameCmd w cmd args).trace = [])) ∧
    (args.length ≠ 1 ∧ args.length ≠ 2 →
      (runPostFileHandleNameCmd w cmd args).trace = [] ∧
      (runPostFileHandleNameCmd w cmd args).outcome = .returned (some (usageError cmd))) := by
  have hd : dots ∉ usageTokens cmd.UsageLine := by
    rcases hc with rfl | rfl <;> decide
  have hm : countMust (usageTokens cmd.UsageLine) = 1 := by
    rcases hc with rfl | rfl <;> decide
  have ho : countOption (usageTokens cmd.UsageLine) = 1 := by
    rcases hc with rfl | rfl <;> decide
  have hv := validateCmdArgs_eq_of_no_dots cmd args hd
  rw [hm, ho] at hv
  refine ⟨?_, ?_, ?_⟩
  · intro name hargs
    subst hargs
    have hv1 : validateCmdArgs cmd [name] = none := by simp [hv]
    have hrun : runPostFileHandleNameCmd w cmd [name] =
        ((client w).NewRequest w "GET" (firstToken cmd ++ "/" ++ name) none >>= fun r =>
          orReturn r >>= fun req => doAndPrint w (id req) >>= fun _ => pure none) := by
      simp only [runPostFileHandleNameCmd, hv1, Act.check, index, List.get?, Act.pure_bind,
        Command.Name_eq_firstToken, List.length_singleton]
      rfl
    obtain ⟨h1, h2, h3, -⟩ := request_tail_spec w "GET" _ none id _ hrun
    exact ⟨h1, by simpa using h2, h3⟩
  · intro name file hargs
    subst hargs
    have hv1 : validateCmdArgs cmd [name, file] = none := by simp [hv]
    by_cases hex : ∃ content, w.osOpen file = .ok (.ok content)
    · obtain ⟨content, hok⟩ := hex
      have hrun : runPostFileHandleNameCmd w cmd [name, file] =
          ⟨((client w).NewRequest w "POST" (firstToken cmd ++ "/" ++ name)
              (some [⟨firstToken cmd, content⟩]) >>= fun r =>
            orReturn r >>= fun req =>
              doAndPrint w { req with
                Header := headerSet req.Header "Content-Type" (formDataContentType w) }
              >>= fun _ => (pure none : Act (Option GoError))).step,
           .osOpen file ::
            ((client w).NewRequest w "POST" (firstToken cmd ++ "/" ++ name)
              (some [⟨firstToken cmd, content⟩]) >>= fun r =>
            orReturn r >>= fun req =>
              doAndPrint w { req with
                Header := headerSet req.Header "Content-Type" (formDataContentType w) }
              >>= fun _ => (pure none : Act (Option GoError))).trace⟩ := by
        simp only [runPostFileHandleNameCmd, hv1, Act.check, index, List.get?, Act.pure_bind,
          Command.Name_eq_firstToken, List.length_cons, List.length_nil,
          writeFileField_ok w [] (firstToken cmd) file content hok]
        rfl
      obtain ⟨h1, h2, h3, -⟩ := request_tail_spec w "POST" (firstToken cmd ++ "/" ++ name)
        (some [⟨firstToken cmd, content⟩])
        (fun req => { req with
          Header := headerSet req.Header "Content-Type" (formDataContentType w) }) _ rfl
      rw [hrun]
      refine ⟨congrArg (List.cons file) h3, ?_, fun hno => absurd hok (hno content)⟩
      intro c hc'
      have hcc : c = content := by
        rw [hok] at hc'
        injection hc' with hc'
        injection hc' with hc'
        exact hc'.symm
      subst hcc
      exact ⟨h1, h2⟩
    · have hno : ∀ content, w.osOpen file ≠ .ok (.ok content) :=
        fun c hc' => hex ⟨c, hc'⟩
      obtain ⟨err, hw⟩ := writeFileField_error w [] (firstToken cmd) file hno
      have hrun : runPostFileHandleNameCmd w cmd [name, file] =
          ⟨.done (.returned (some err)), [.osOpen file]⟩ := by
        simp only [runPostFileHandleNameCmd, hv1, Act.check, index, List.get?, Act.pure_bind,
          Command.Name_eq_firstToken, List.length_cons, List.length_nil, hw]
        rfl
      rw [hrun]
      exact ⟨rfl, fun c hc' => absurd hc' (hno c), fun _ => ⟨rfl, rfl⟩⟩
  · intro hlen
    have hv2 : validateCmdArgs cmd args = some (usageError cmd) := by
      rw [hv]
      have : ¬ (1 ≤ args.length ∧ args.length ≤ 1 + 1) := by omega
      simp [this]
    have hrun : runPostFileHandleNameCmd w cmd args =
        ⟨.done (.returned (some (usageError cmd))), []⟩ := by
      simp only [runPostFileHandleNameCmd, hv2, check_some_bind]
    rw [hrun]
    exact ⟨rfl, rfl⟩

theorem runPostFileHandleNameCmd_by_arity_witness :
    (publicKeyCmd = publicKeyCmd ∨ publicKeyCmd = userDataCmd) ∧
    built (runPostFileHandleNameCmd demoWorld publicKeyCmd ["vm1"]).trace =
      [("GET", "public_key/vm1", none)] ∧
    opened (runPostFileHandleNameCmd demoWorld publicKeyCmd ["vm1", "id_rsa.pub"]).trace =
      ["id_rsa.pub"] ∧
    built (runPostFileHandleNameCmd demoWorld publicKeyCmd ["vm1", "id_rsa.pub"]).trace =
      [("POST", "public_key/vm1", some [⟨"public_key", "ssh-rsa AAAA"⟩])] ∧
    (runPostFileHandleNameCmd demoWorld publicKeyCmd ["vm1", "id_rsa.pub", "x"]).trace = [] :=
  ⟨by decide,
   ((runPostFileHandleNameCmd_by_arity demoWorld publicKeyCmd ["vm1"] (by decide)).1
      "vm1" rfl).1,
   ((runPostFileHandleNameCmd_by_arity demoWorld publicKeyCmd ["vm1", "id_rsa.pub"]
      (by decide)).2.1 "vm1" "id_rsa.pub" rfl).1,
   (((runPostFileHandleNameCmd_by_arity demoWorld publicKeyCmd ["vm1", "id_rsa.pub"]
      (by decide)).2.1 "vm1" "id_rsa.pub" rfl).2.1 "ssh-rsa AAAA" rfl).1,
   ((runPostFileHandleNameCmd_by_arity demoWorld publicKeyCmd ["vm1", "id_rsa.pub", "x"]
      (by decide)).2.2 (by decide)).1⟩

/-- C3 as stated fails: with three arguments `public_key` returns the
argument-count error of `validateCmdArgs`, not the error `invalid arguments`. -/
theorem runPostFileHandleNameCmd_three_args :
    (runPostFileHandleNameCmd demoWorld publicKeyCmd ["vm1", "id_rsa.pub", "x"]).outcome =
      .returned (some "invalid argument\nUsage: public_key <name> [file]") ∧
    (runPostFileHandleNameCmd demoWorld publicKeyCmd ["vm1", "id_rsa.pub", "x"]).outcome ≠
      .returned (some "invalid arguments") := by
  decide


/-! ## Index safety -/

section Bounds

variable {α β : Type}

theorem InBounds.bind {m : Act α} {f : α → Act β} (hm : InBounds m)
    (hf : ∀ a, InBounds (f a)) : InBounds (m >>= f) := by
  constructor
  rw [Act.step_bind]
  cases hs : m.step with
  | next a => exact (hf a).step_ne
  | done o =>
    intro h
    apply hm.step_ne
    rw [hs]
    simpa using h

theorem InBounds.pure (a : α) : InBounds (pure a : Act α) :=
  ⟨fun h => by cases h⟩

theorem InBounds.emit (e : Event) : InBounds (emit e) :=
  ⟨fun h => by cases h⟩

theorem InBounds.returnErr (e : GoError) : InBounds (returnErr e : Act α) :=
  ⟨fun h => by cases h⟩

theorem InBounds.osExit (code : Nat) : InBounds (osExit code : Act α) :=
  ⟨fun h => by cases h⟩

theorem InBounds.check (e : Option GoError) : InBounds (check e) := by
  cases e <;> exact ⟨fun h => by cases h⟩

theorem InBounds.orReturn (r : Except GoError α) : InBounds (orReturn r) := by
  cases r <;> exact ⟨fun h => by cases h⟩

theorem InBounds.flagBool (cmd : Command) (name : String) : InBounds (flagBool cmd name) := by
  unfold Mezasi.flagBool
  split <;> exact ⟨fun h => by cases h⟩

theorem InBounds.ipAddr (m : List (String × JsonValue)) : InBounds (ipAddr m) := by
  unfold Mezasi.ipAddr
  split <;> exact ⟨fun h => by cases h⟩

theorem InBounds.newRequest (w : World) (c : Client) (method pathStr : String)
    (body : Option (List Part)) : InBounds (c.NewRequest w method pathStr body) :=
  ⟨fun h => by cases h⟩

theorem InBounds.clientDo (w : World) (c : Client) (req : Request) : InBounds (c.Do w req) :=
  ⟨fun h => by cases h⟩

theorem InBounds.pp (w : World) (r : Except GoError Response) : InBounds (pp w r) := by
  obtain ⟨-, err, he⟩ := pp_quiet w r
  constructor
  intro h
  rw [he] at h
  cases h

theorem InBounds.doAndPrint (w : World) (req : Request) : InBounds (doAndPrint w req) := by
  obtain ⟨t, -, -, hs⟩ := doAndPrint_spec w req
  constructor
  intro h
  rcases hs with hs | ⟨e, hs⟩ <;> rw [hs] at h <;> cases h

theorem InBounds.writeFileField (w : World) (mw : List Part) (fieldName filePath : String) :
    InBounds (writeFileField w mw fieldName filePath) := by
  unfold Mezasi.writeFileField
  apply InBounds.bind (InBounds.emit _)
  intro _
  split
  · exact InBounds.pure _
  · split <;> exact InBounds.pure _

theorem InBounds.index {args : List String} {i : Nat} (h : i < args.length) :
    InBounds (index args i) := by
  unfold Mezasi.index
  rw [List.get?_eq_get h]
  exact InBounds.pure _

theorem InBounds.sliceFrom {args : List String} {i : Nat} (h : i ≤ args.length) :
    InBounds (sliceFrom args i) := by
  unfold Mezasi.sliceFrom
  rw [if_pos h]
  exact InBounds.pure _

theorem InBounds.outcome {m : Act (Option GoError)} (h : InBounds m) :
    m.outcome ≠ .panicked .indexOutOfRange := by
  have h1 := h.step_ne
  unfold Act.outcome
  cases hs : m.step with
  | next a => intro h2; cases h2
  | done o =>
    intro h2
    apply h1
    rw [hs]
    exact congrArg Step.done h2

end Bounds

theorem runSshCmd_inBounds (w : World) (cmd : Command) (args : List String)
    (h : 1 ≤ args.length) : InBounds (runSshCmd w cmd args) := by
  unfold runSshCmd
  repeat' first
    | exact InBounds.pure _
    | exact InBounds.emit _
    | exact InBounds.check _
    | exact InBounds.orReturn _
    | exact InBounds.newRequest _ _ _ _ _
    | exact InBounds.clientDo _ _ _
    | exact InBounds.pp _ _
    | exact InBounds.ipAddr _
    | exact InBounds.index (by omega)
    | exact InBounds.sliceFrom (by omega)
    | apply InBounds.bind
    | intro _
    | split

theorem runInfoCmd_inBounds (w : World) (cmd : Command) (args : List String)
    (h : 1 ≤ args.length) : InBounds (runInfoCmd w cmd args) := by
  unfold runInfoCmd
  repeat' first
    | exact InBounds.pure _
    | exact InBounds.check _
    | exact InBounds.orReturn _
    | exact InBounds.newRequest _ _ _ _ _
    | exact InBounds.doAndPrint _ _
    | exact InBounds.index (by omega)
    | apply InBounds.bind
    | intro _

theorem runPostHandleNameCmd_inBounds (w : World) (cmd : Command) (args : List String)
    (h : 1 ≤ args.length) : InBounds (runPostHandleNameCmd w cmd args) := by
  unfold runPostHandleNameCmd
  repeat' first
    | exact InBounds.pure _
    | exact InBounds.check _
    | exact InBounds.orReturn _
    | exact InBounds.newRequest _ _ _ _ _
    | exact InBounds.doAndPrint _ _
    | exact InBounds.index (by omega)
    | apply InBounds.bind
    | intro _

theorem runRemoveCmd_inBounds (w : World) (cmd : Command) (args : List String)
    (h : 1 ≤ args.length) : InBounds (runRemoveCmd w cmd args) := by
  unfold runRemoveCmd
  repeat' first
    | exact InBounds.pure _
    | exact InBounds.emit _
    | exact InBounds.check _
    | exact InBounds.osExit _
    | exact InBounds.orReturn _
    | exact InBounds.flagBool _ _
    | exact InBounds.newRequest _ _ _ _ _
    | exact InBounds.doAndPrint _ _
    | exact InBounds.index (by omega)
    | apply InBounds.bind
    | intro _
    | split
    | dsimp only

theorem runPostFileHandleNameCmd_inBounds (w : World) (cmd : Command) (args : List String)
    (h : 1 ≤ args.length) : InBounds (runPostFileHandleNameCmd w cmd args) := by
  unfold runPostFileHandleNameCmd
  repeat' first
    | exact InBounds.pure _
    | exact InBounds.check _
    | exact InBounds.returnErr _
    | exact InBounds.orReturn _
    | exact InBounds.writeFileField _ _ _ _
    | exact InBounds.newRequest _ _ _ _ _
    | exact InBounds.doAndPrint _ _
    | exact InBounds.index (by omega)
    | apply InBounds.bind
    | intro _
    | split

theorem readsFirstArg_required (cmd : Command) (h : readsFirstArg cmd) :
    1 ≤ countMust (beforeVariadic (usageTokens cmd.UsageLine)) := by
  rcases h with rfl | rfl | rfl | rfl | ⟨yes, rfl⟩ | rfl | rfl | rfl
  · decide
  · decide
  · decide
  · decide
  · show 1 ≤ countMust (beforeVariadic (usageTokens "remove <name>"))
    decide
  · decide
  · decide
  · decide

/-- C9: whenever `validateCmdArgs` returns nil, `len(args)` is at least the
number of `<name>` placeholder tokens ahead of the first `...` token of the
usage line (all of them when there is none); so for `info`, `start`, `stop`,
`force_stop`, `remove`, `public_key`, `user_data` and `ssh` the index
`args[0]` and the slice `args[1:]` are in bounds after validation, and the
handlers of these descriptors do not end in an index-out-of-range panic. -/
theorem validated_args_in_bounds (w : World) (cmd : Command) (args : List String)
    (h : validateCmdArgs cmd args = none) :
    countMust (beforeVariadic (usageTokens cmd.UsageLine)) ≤ args.length ∧
    (readsFirstArg cmd →
      (∃ name, args.head? = some name ∧ index args 0 = pure name) ∧
      sliceFrom args 1 = pure args.tail ∧
      (runInfoCmd w cmd args).outcome ≠ .panicked .indexOutOfRange ∧
      (runPostHandleNameCmd w cmd args).outcome ≠ .panicked .indexOutOfRange ∧
      (runRemoveCmd w cmd args).outcome ≠ .panicked .indexOutOfRange ∧
      (runPostFileHandleNameCmd w cmd args).outcome ≠ .panicked .indexOutOfRange ∧
      (runSshCmd w cmd args).outcome ≠ .panicked .indexOutOfRange) := by
  have hb := validateCmdArgs_lower_bound cmd args h
  refine ⟨hb, fun hr => ?_⟩
  have h1 : 1 ≤ args.length := le_trans (readsFirstArg_required cmd hr) hb
  refine ⟨?_, ?_, (runInfoCmd_inBounds w cmd args h1).outcome,
    (runPostHandleNameCmd_inBounds w cmd args h1).outcome,
    (runRemoveCmd_inBounds w cmd args h1).outcome,
    (runPostFileHandleNameCmd_inBounds w cmd args h1).outcome,
    (runSshCmd_inBounds w cmd args h1).outcome⟩
  · cases args with
    | nil => simp at h1
    | cons a rest => exact ⟨a, rfl, rfl⟩
  · cases args with
    | nil => simp at h1
    | cons a rest => simp [sliceFrom]

theorem validated_args_in_bounds_witness :
    validateCmdArgs sshCmd ["vm1", "uptime"] = none ∧
    countMust (beforeVariadic (usageTokens sshCmd.UsageLine)) ≤ 2 ∧
    readsFirstArg sshCmd ∧
    sliceFrom ["vm1", "uptime"] 1 = pure ["uptime"] ∧
    (runSshCmd demoWorld sshCmd ["vm1", "uptime"]).outcome ≠ .panicked .indexOutOfRange :=
  ⟨by decide,
   (validated_args_in_bounds demoWorld sshCmd ["vm1", "uptime"] (by decide)).1,
   by simp [readsFirstArg],
   ((validated_args_in_bounds demoWorld sshCmd ["vm1", "uptime"] (by decide)).2
      (by simp [readsFirstArg])).2.1,
   ((validated_args_in_bounds demoWorld sshCmd ["vm1", "uptime"] (by decide)).2
      (by simp [readsFirstArg])).2.2.2.2.2.2⟩

/-! ## The ssh lookup and the presenter -/

/-- What `runSshCmd` does on a lookup that comes back with a status other
than 200: it prints the response, starts no subprocess and returns nil. -/
theorem runSshCmd_non_200 (w : World) (name : String) (rest : List String)
    (req : Request) (resp : Response)
    (hb : (client w).buildRequest w "GET" ("vm/info/" ++ name) none = .ok req)
    (hr : w.roundTrip req = .ok resp) (hs : resp.StatusCode ≠ 200) :
    (runSshCmd w sshCmd (name :: rest)).outcome = .returned none ∧
    sent (runSshCmd w sshCmd (name :: rest)).trace = [req] ∧
    started (runSshCmd w sshCmd (name :: rest)).trace = [] := by
  have hc : countMust ["ssh".toList, "<name>".toList] ≤ (name :: rest).length := by
    have : countMust ["ssh".toList, "<name>".toList] = 1 := by decide
    rw [this]
    simp
  have hv : validateCmdArgs sshCmd (name :: rest) = none := by
    rw [validateCmdArgs_eq_of_first_dots sshCmd (name :: rest) ["ssh".toList, "<name>".toList] []
      (by decide) (by decide), if_pos hc]
  obtain ⟨hq, err, he⟩ := pp_quiet w (.ok resp)
  obtain ⟨h1, -, -, h4, -⟩ := hq.projections
  have hpp : (pp w (.ok resp) >>= fun _ => (pure none : Act (Option GoError))) =
      ⟨.next none, (pp w (.ok resp)).trace⟩ := by
    simp [Act.bind_eq, Act.bind, he]
  have hrun : runSshCmd w sshCmd (name :: rest) =
      ⟨.next none, .newRequest "GET" ("vm/info/" ++ name) none :: .httpDo req ::
        (pp w (.ok resp)).trace⟩ := by
    simp only [runSshCmd, hv, check, Act.pure_bind, index, List.get?, Client.NewRequest_eq,
      Act.bind_next, hb, orReturn_ok, Client.Do_eq, hr]
    rw [if_pos hs]
    simp only [hpp]
    rfl
  rw [hrun]
  refine ⟨rfl, ?_, ?_⟩
  · show req :: sent (pp w (.ok resp)).trace = [req]
    rw [h1]
  · show started (pp w (.ok resp)).trace = []
    exact h4

/-- C6, the code at the failing input: `ssh vm1` against a server that
answers the lookup `GET vm/info/vm1` with `404 Not Found`.  The handler
prints the response and starts no subprocess, but the error it returns is
nil, so the process exits with status 0. -/
theorem runSshCmd_not_found_returns_nil :
    (runSshCmd notFoundWorld sshCmd ["vm1"]).trace =
      [.newRequest "GET" "vm/info/vm1" none,
       .httpDo ⟨"GET", "http://host/api/vm/info/vm1", none, [("User-Agent", "Mezasi/0.1")]⟩,
       .logPrintln "404 Not Found",
       .fmtPrintln "no such vm"] ∧
    started (runSshCmd notFoundWorld sshCmd ["vm1"]).trace = [] ∧
    (runSshCmd notFoundWorld sshCmd ["vm1"]).outcome = .returned none ∧
    exitStatus (runSshCmd notFoundWorld sshCmd ["vm1"]).outcome = 0 := by
  decide

/-- What `pp` does with a response whose body was read as `src`: under a
content type with `json` at an offset above 0 it prints the indented body, or
returns the error of `json.Indent` and prints nothing; under every other
content type it prints `src` unchanged and returns nil. -/
theorem pp_of_body (w : World) (resp : Response) (src : String) (hb : resp.Body = .ok src) :
    (0 < stringsIndex resp.ContentType "json" →
      (∀ b, w.jsonIndent src = .ok b →
        printed (pp w (.ok resp)).trace = [b] ∧ (pp w (.ok resp)).step = .next none) ∧
      (∀ e, w.jsonIndent src = .error e →
        printed (pp w (.ok resp)).trace = [] ∧ (pp w (.ok resp)).step = .next (some e))) ∧
    (¬ 0 < stringsIndex resp.ContentType "json" →
      printed (pp w (.ok resp)).trace = [src] ∧ (pp w (.ok resp)).step = .next none) := by
  constructor
  · intro hi
    have hi2 : stringsIndex resp.ContentType "json" > 0 := hi
    constructor
    · intro b hj
      have hrun : pp w (.ok resp) = ⟨.next none, [.logPrintln resp.Status, .fmtPrintln b]⟩ := by
        simp only [pp, emit_bind, hb, hi2, if_true, hj]
        rfl
      rw [hrun]
      exact ⟨rfl, rfl⟩
    · intro e hj
      have hrun : pp w (.ok resp) = ⟨.next (some e), [.logPrintln resp.Status]⟩ := by
        simp only [pp, emit_bind, hb, hi2, if_true, hj]
        rfl
      rw [hrun]
      exact ⟨rfl, rfl⟩
  · intro hi
    have hi2 : ¬ stringsIndex resp.ContentType "json" > 0 := hi
    have hrun : pp w (.ok resp) = ⟨.next none, [.logPrintln resp.Status, .fmtPrintln src]⟩ := by
      simp only [pp, emit_bind, hb, hi2, if_false]
      rfl
    rw [hrun]
    exact ⟨rfl, rfl⟩

/-- C8, the code at the failing input: a response with the content type
`json` and the body `{"a":1}`.  The header contains `json`, at offset 0, and
`pp` prints the body as it came; under `application/json` the same body is
printed indented. -/
theorem pp_bare_json_printed_raw :
    bareJsonResponse.ContentType = "json" ∧
    stringsIndex bareJsonResponse.ContentType "json" = 0 ∧
    printed (pp demoWorld (.ok bareJsonResponse)).trace = ["\x7b\"a\":1\x7d"] ∧
    printed (pp demoWorld
      (.ok { bareJsonResponse with ContentType := "application/json" })).trace =
        ["\x7b\n    \"a\": 1\n\x7d"] := by
  decide

end Mezasi
